import Mathlib

/-!
# Verification of the ChatProtoGol core against its specification

This file gives a shallow embedding, in Lean 4, of the core data structures and
operations of the ChatProtoGol repository (a peer-to-peer chat overlay written in
Go) and proves or refutes the frozen specification claims about them.

Conventions of the embedding:
* Go machine integers are modelled as `Nat`/`Int` with explicit `% 2^w` where
  overflow can occur (`uint32` arithmetic, `int64` counters).
* Go byte slices are `List Nat` whose elements are intended to be `< 256`;
  theorems that need the bound carry it as a hypothesis.
* Go maps are association lists (`List (key × value)`); lookup finds the first
  matching key.  Map iteration order, which is unspecified in Go, is modelled as
  the list order.
* Fallible Go code (errors, `assert` panics, runtime slice-bound panics) is
  modelled with `Option`/`Except`/dedicated result types; a Go panic is a
  distinguished constructor, never silently ignored.
-/

namespace ChatProto

/-! ## Packet codec (src/pkt/packet.go, src/pkt/checksum.go) -/

/-- Go `pkt.Header`: the fixed 16-byte header.  The two 4-byte addresses, the
2-byte checksum and the 4-byte packet number are byte lists (`[4]byte`,
`[2]byte` in Go). -/
structure Header where
  sourceAddr : List Nat
  destAddr : List Nat
  control : Nat
  ttl : Nat
  checksum : List Nat
  pktNum : List Nat
  deriving Repr, DecidableEq

/-- Go `pkt.Packet`: header plus payload bytes. -/
structure Packet where
  header : Header
  payload : List Nat
  deriving Repr, DecidableEq

/-- Well-formedness of a header: field byte-lengths as in the Go array types and
every byte below 256. -/
def WFHeader (h : Header) : Prop :=
  h.sourceAddr.length = 4 ∧ h.destAddr.length = 4 ∧ h.checksum.length = 2 ∧
  h.pktNum.length = 4 ∧ h.control < 256 ∧ h.ttl < 256 ∧
  (∀ b ∈ h.sourceAddr, b < 256) ∧ (∀ b ∈ h.destAddr, b < 256) ∧
  (∀ b ∈ h.checksum, b < 256) ∧ (∀ b ∈ h.pktNum, b < 256)

/-- Well-formedness of a packet: well-formed header and payload bytes below 256. -/
def WFPacket (p : Packet) : Prop :=
  WFHeader p.header ∧ ∀ b ∈ p.payload, b < 256

instance (h : Header) : Decidable (WFHeader h) := by unfold WFHeader; infer_instance

instance (p : Packet) : Decidable (WFPacket p) := by unfold WFPacket; infer_instance

/-- Go `(*Packet).ToByteArray`: header fields concatenated in order, then the
payload. -/
def Packet.ToByteArray (p : Packet) : List Nat :=
  p.header.sourceAddr ++ p.header.destAddr ++ [p.header.control, p.header.ttl] ++
    p.header.checksum ++ p.header.pktNum ++ p.payload

/-- Go `pkt.ParsePacket`: rejects data shorter than 16 bytes, otherwise splits
the bytes into header fields and payload. -/
def ParsePacket (data : List Nat) : Except String Packet :=
  if data.length < 16 then
    .error "data length is less than 16 bytes"
  else
    .ok
      { header :=
          { sourceAddr := data.take 4
            destAddr := (data.drop 4).take 4
            control := data.getD 8 0
            ttl := data.getD 9 0
            checksum := [data.getD 10 0, data.getD 11 0]
            pktNum := (data.drop 12).take 4 }
        payload := data.drop 16 }

/-- The 16-bit word sum used by `calculateChecksum`: bytes are paired
big-endian, an odd trailing byte is padded on the high half. -/
def wordSum : List Nat → Nat
  | [] => 0
  | [x] => x * 256
  | x :: y :: rest => x * 256 + y + wordSum rest

/-- One step of the carry-folding loop, with explicit fuel (each Go loop
iteration strictly decreases the sum, so fuel `s` always suffices; see
`foldCarriesAux_spec`). -/
def foldCarriesAux : Nat → Nat → Nat
  | 0, s => s
  | fuel + 1, s => if s / 65536 > 0 then foldCarriesAux fuel (s % 65536 + s / 65536) else s

/-- The carry-folding loop of `calculateChecksum`: while the sum exceeds 16
bits, add the upper half into the lower half. -/
def foldCarries (s : Nat) : Nat := foldCarriesAux s s

/-- Go `pkt.calculateChecksum`: 16-bit one's-complement sum of the serialized
packet, returned as two bytes. -/
def calculateChecksum (p : Packet) : List Nat :=
  let s := foldCarries (wordSum p.ToByteArray)
  [s / 256, s % 256]

/-- Go `pkt.SetChecksum`: zero the checksum field, compute the sum, store its
bitwise complement. -/
def SetChecksum (p : Packet) : Packet :=
  let cleared : Packet := { p with header := { p.header with checksum := [0, 0] } }
  let c := calculateChecksum cleared
  { p with header := { p.header with checksum := [c.getD 0 0 ^^^ 255, c.getD 1 0 ^^^ 255] } }

/-- Go `pkt.VerifyChecksum`: the packet (including the stored checksum) must sum
to `0xFFFF`. -/
def VerifyChecksum (p : Packet) : Bool :=
  calculateChecksum p = [255, 255]

/-- Flip bit `j` of the byte at position `i` of a byte list. -/
def flipBit (data : List Nat) (i j : Nat) : List Nat :=
  data.set i (data.getD i 0 ^^^ 2 ^ j)

/-! ## Addresses and Go maps

Hosts are IPv4 addresses; we model an address as its 32-bit big-endian value
(`netip.Addr` ↦ `Nat`).  The zero value `netip.Addr{}` (an invalid address,
produced e.g. by `var removedNeighbor netip.Addr`) is modelled as `0`; theorems
about real hosts assume host addresses are positive.  Go maps are association
lists; Go's unspecified map iteration order is modelled as the list order. -/

abbrev Addr := Nat

/-- `netip.AddrPort`: address and port. -/
abbrev AddrPort := Addr × Nat

/-- Go map read with `ok` flag: first matching key. -/
def lookupA {κ β : Type} [DecidableEq κ] : List (κ × β) → κ → Option β
  | [], _ => none
  | (k, v) :: rest, a => if k = a then some v else lookupA rest a

/-- Go `delete(m, a)`. -/
def removeA {κ β : Type} [DecidableEq κ] (m : List (κ × β)) (a : κ) : List (κ × β) :=
  m.filter (fun kv => kv.1 ≠ a)

/-- Go `m[a] = v`: replace in place if the key is present, else append. -/
def setA {κ β : Type} [DecidableEq κ] : List (κ × β) → κ → β → List (κ × β)
  | [], a, v => [(a, v)]
  | kv :: rest, a, v => if kv.1 = a then (a, v) :: rest else kv :: setA rest a v

/-- Big-endian 32-bit value of (the first four of) a byte list:
`binary.BigEndian.Uint32` and the value of a 4-byte IPv4 address. -/
def beUint32 (l : List Nat) : Nat :=
  l.getD 0 0 * 2 ^ 24 + l.getD 1 0 * 2 ^ 16 + l.getD 2 0 * 2 ^ 8 + l.getD 3 0

/-- Go conversion `uint32(i)` of an `int64`: two's-complement truncation. -/
def uint32OfInt (i : Int) : Nat := (i % 2 ^ 32).toNat

/-! ## Incoming sequence tracker (src/sequencing/in.go) -/

/-- `common.RECEIVE_BUFFER_SIZE`: the receiver's out-of-order window. -/
def RECEIVE_BUFFER_SIZE : Int := 1000

/-- Go `IncomingPktNumHandler`: per-source highest contiguous packet number and
the set of buffered future packet numbers (`map[int64]bool` ↦ `List Int`). -/
structure InState where
  highestPktNum : List (Addr × Int)
  futurePktNums : List (Addr × List Int)
  deriving Repr, DecidableEq

def emptyInState : InState := ⟨[], []⟩

/-- The advance loop of `IsDuplicatePacket`: while `high + 1` is buffered,
advance and drop it.  Each iteration removes one element of the future set, so
fuel `fut.length` suffices. -/
def advanceContiguous : Nat → List Int → Int → Int × List Int
  | 0, fut, high => (high, fut)
  | fuel + 1, fut, high =>
    if (high + 1) ∈ fut then advanceContiguous fuel (fut.filter (· ≠ high + 1)) (high + 1)
    else (high, fut)

/-- Result of `IsDuplicatePacket`: the `(bool, error)` pair plus the updated
tracker state. -/
structure DupResult where
  isDup : Bool
  errMsg : Option String
  state : InState
  deriving Repr, DecidableEq

/-- Go `(*IncomingPktNumHandler).IsDuplicatePacket`. -/
def IsDuplicatePacket (localAddr : Addr) (s : InState) (p : Packet) : DupResult :=
  if beUint32 p.header.destAddr ≠ localAddr then
    ⟨false, some "packet is not destined for us, cannot check for duplicates", s⟩
  else
    let peerAddr := beUint32 p.header.sourceAddr
    let seqNum : Int := (beUint32 p.header.pktNum : Int)
    let highest := (lookupA s.highestPktNum peerAddr).getD (-1)
    if seqNum ≤ highest then ⟨true, none, s⟩
    else if seqNum = highest + 1 then
      let fut := (lookupA s.futurePktNums peerAddr).getD []
      let hf := advanceContiguous fut.length fut seqNum
      ⟨false, none,
        { highestPktNum := setA s.highestPktNum peerAddr hf.1
          futurePktNums :=
            if hf.2.isEmpty then removeA s.futurePktNums peerAddr
            else setA s.futurePktNums peerAddr hf.2 }⟩
    else
      if seqNum - highest > RECEIVE_BUFFER_SIZE then
        ⟨true, some "Received packet with sequence number too far ahead, dropping packet", s⟩
      else
        let fut := (lookupA s.futurePktNums peerAddr).getD []
        if seqNum ∈ fut then ⟨true, none, s⟩
        else ⟨false, none,
          { s with futurePktNums := setA s.futurePktNums peerAddr (fut ++ [seqNum]) }⟩

/-- Go `(*IncomingPktNumHandler).GetHighestContiguousSeqNum`. -/
def GetHighestContiguousSeqNum (s : InState) (peerAddr : Addr) : Int :=
  (lookupA s.highestPktNum peerAddr).getD (-1)

/-- Go `(*IncomingPktNumHandler).ClearIncomingPacketNumbers`. -/
def ClearIncomingPacketNumbers (s : InState) (peerAddr : Addr) : InState :=
  ⟨removeA s.highestPktNum peerAddr, removeA s.futurePktNums peerAddr⟩

/-! ## On-disk file reconstructor (src/sequencing/reconstruction/file.go)

The temp file's written contents are modelled as the byte list `fileBytes`. -/

structure FileRecState where
  packetBuffer : List (Int × List Nat)
  lowestPktNum : Int
  highestWrittenPktNum : Int
  highestUnwrittenPktNum : Int
  fileBytes : List Nat
  fileCreated : Bool
  deriving Repr, DecidableEq

/-- Go `NewOnDiskReconstructor`. -/
def NewOnDiskReconstructor : FileRecState :=
  ⟨[], -1, -1, -1, [], false⟩

/-- The loop body of `flushContiguousPayloads`: `i` runs from
`highestWrittenPktNum + 1` to `highestUnwrittenPktNum`; a packet beyond the
incoming tracker's highest contiguous number stops the flush; missing buffer
entries are skipped; written payloads are appended to the file and removed from
the buffer.  `inHigh` is `inSequencing.GetHighestContiguousSeqNum(peerAddr)`. -/
def flushContiguousAux (inHigh : Int) : Nat → FileRecState → Int → FileRecState
  | 0, r, _ => r
  | fuel + 1, r, i =>
    if i ≤ r.highestUnwrittenPktNum then
      let pay? := lookupA r.packetBuffer i
      if i > inHigh then r
      else
        match pay? with
        | none => flushContiguousAux inHigh fuel r (i + 1)
        | some pay =>
          flushContiguousAux inHigh fuel
            { r with
              fileBytes := r.fileBytes ++ pay
              packetBuffer := removeA r.packetBuffer i
              highestWrittenPktNum := i }
            (i + 1)
    else r

/-- Go `(*OnDiskReconstructor).flushContiguousPayloads`. -/
def flushContiguousPayloads (inHigh : Int) (r : FileRecState) : FileRecState :=
  flushContiguousAux inHigh
    ((r.highestUnwrittenPktNum - r.highestWrittenPktNum).toNat + 1) r
    (r.highestWrittenPktNum + 1)

/-- Go `(*OnDiskReconstructor).flushRemainingPayloads`: like the contiguous
flush but without the incoming-tracker gate, and it does not advance
`highestWrittenPktNum`. -/
def flushRemainingAux : Nat → FileRecState → Int → FileRecState
  | 0, r, _ => r
  | fuel + 1, r, i =>
    if i ≤ r.highestUnwrittenPktNum then
      match lookupA r.packetBuffer i with
      | none => flushRemainingAux fuel r (i + 1)
      | some pay =>
        flushRemainingAux fuel
          { r with fileBytes := r.fileBytes ++ pay, packetBuffer := removeA r.packetBuffer i }
          (i + 1)
    else r

def flushRemainingPayloads (r : FileRecState) : FileRecState :=
  flushRemainingAux ((r.highestUnwrittenPktNum - r.highestWrittenPktNum).toNat + 1) r
    (r.highestWrittenPktNum + 1)

/-- Go `(*OnDiskReconstructor).HandleIncomingFilePacket`.  `inHigh` is the
incoming tracker's highest contiguous number for the peer, read by the flush. -/
def HandleIncomingFilePacket (inHigh : Int) (r : FileRecState) (pktNum : Int)
    (payload : List Nat) : FileRecState :=
  let r := { r with packetBuffer := setA r.packetBuffer pktNum payload }
  let r := if r.fileCreated then r else { r with fileCreated := true }
  if r.lowestPktNum < 0 then
    { r with lowestPktNum := pktNum, highestWrittenPktNum := pktNum }
  else
    let r := if pktNum < r.lowestPktNum then { r with lowestPktNum := pktNum } else r
    let r :=
      if pktNum > r.highestUnwrittenPktNum then { r with highestUnwrittenPktNum := pktNum }
      else r
    flushContiguousPayloads inHigh r

/-- Go `(*OnDiskReconstructor).FinishFilePacketSequence`: flush the remaining
payloads, then read the metadata payload at `lowestPktNum` (the code asserts it
is present — `none` models that panic) and return the file name (metadata
truncated to 1024 bytes) together with the final file contents. -/
def FinishFilePacketSequence (r : FileRecState) : Option (List Nat × List Nat) :=
  let r := flushRemainingPayloads r
  match lookupA r.packetBuffer r.lowestPktNum with
  | none => none
  | some metadataPayload => some (metadataPayload.take 1024, r.fileBytes)

/-- Go `(*OnDiskReconstructor).GetHighestPktNum`: errors when nothing was
buffered, otherwise `uint32(highestUnwrittenPktNum)`. -/
def fileGetHighestPktNum (r : FileRecState) : Option Nat :=
  if r.highestUnwrittenPktNum < 0 then none
  else some (uint32OfInt r.highestUnwrittenPktNum)

/-- Go `handleFileTransfer` (src/handler/file.go) for a packet destined to the
local address: duplicate-check (which updates the incoming tracker), then hand
the packet to the file reconstructor. -/
def handleFilePacketLocal (localAddr : Addr) (st : InState × FileRecState)
    (p : Packet) : InState × FileRecState :=
  let res := IsDuplicatePacket localAddr st.1 p
  if res.errMsg.isSome then (res.state, st.2)
  else if res.isDup then (res.state, st.2)
  else
    let inHigh := GetHighestContiguousSeqNum res.state (beUint32 p.header.sourceAddr)
    (res.state,
      HandleIncomingFilePacket inHigh st.2 ((beUint32 p.header.pktNum : Nat) : Int) p.payload)

/-! ## In-memory message reconstructor (src/unnamed/part_030) -/

/-- Go `InMemoryReconstructor`: buffered payloads keyed by the 32-bit packet
number. -/
structure MsgRecState where
  bufferedPayloads : List (Nat × List Nat)
  deriving Repr, DecidableEq

/-- Go `(*InMemoryReconstructor).GetHighestPktNum`: errors when empty,
otherwise the maximum buffered key (computed from 0 up, as the Go loop does). -/
def msgGetHighestPktNum (r : MsgRecState) : Option Nat :=
  match r.bufferedPayloads with
  | [] => none
  | _ => some ((r.bufferedPayloads.map Prod.fst).foldl max 0)

/-! ## FIN handling (src/handler/fin.go) -/

inductive FinOutcome where
  | forwarded
  | shortPayload
  | dupError
  | duplicate
  | fileFinished
  | msgFinished
  | noCommit
  deriving Repr, DecidableEq

structure FinResult where
  outcome : FinOutcome
  inState : InState
  fileRec : Option FileRecState
  msgRec : Option MsgRecState
  deriving Repr, DecidableEq

/-- In `handleFinish`, whether a file reconstructor exists for the peer and its
`GetHighestPktNum` succeeds with a value equal to the FIN payload. -/
def fileRecMatches (fileRec : Option FileRecState) (lastPktNum : Nat) : Bool :=
  match fileRec with
  | some fr =>
    match fileGetHighestPktNum fr with
    | some h => h == lastPktNum
    | none => false
  | none => false

/-- In `handleFinish`, whether a message reconstructor exists for the peer and
its `GetHighestPktNum` succeeds with a value equal to the FIN payload. -/
def msgRecMatches (msgRec : Option MsgRecState) (lastPktNum : Nat) : Bool :=
  match msgRec with
  | some mr =>
    match msgGetHighestPktNum mr with
    | some h => h == lastPktNum
    | none => false
  | none => false

/-- Go `handleFinish`: forward if not local; drop short payloads; duplicate
check; then commit the file stream if its highest packet number equals the
FIN payload, else the message stream, else nothing. -/
def handleFinish (localAddr : Addr) (inS : InState) (fileRec : Option FileRecState)
    (msgRec : Option MsgRecState) (p : Packet) : FinResult :=
  if beUint32 p.header.destAddr ≠ localAddr then ⟨.forwarded, inS, fileRec, msgRec⟩
  else if p.payload.length < 4 then ⟨.shortPayload, inS, fileRec, msgRec⟩
  else
    let lastPktNum := beUint32 p.payload
    let res := IsDuplicatePacket localAddr inS p
    if res.errMsg.isSome then ⟨.dupError, res.state, fileRec, msgRec⟩
    else if res.isDup then ⟨.duplicate, res.state, fileRec, msgRec⟩
    else
      if fileRecMatches fileRec lastPktNum then ⟨.fileFinished, res.state, none, msgRec⟩
      else if msgRecMatches msgRec lastPktNum then ⟨.msgFinished, res.state, fileRec, none⟩
      else ⟨.noCommit, res.state, fileRec, msgRec⟩

/-! ## Outgoing sequence tracker and congestion control (src/sequencing/out.go)

Per-destination maps as in the Go struct.  `OpenAck`'s timer and observable are
concurrency plumbing; the state machine keeps its retry counter.  Timing
(`lastCongestionEventTime` and the RTO cooldown test) enters a timeout step as
an oracle boolean.  `int64` counters are `Int` (overflow would need `≥ 2^63`
ACKs on one destination). -/

/-- `common.RETRIES_PER_PACKET`. -/
def RETRIES_PER_PACKET : Nat := 10

structure OutState where
  packetNumbers : List (Addr × Nat)
  openAcks : List (Addr × List (Nat × Nat))
  highestAckedContiguousPktNum : List (Addr × Int)
  cwnd : List (Addr × Int)
  ssthresh : List (Addr × Int)
  cAvoidanceAcc : List (Addr × Int)
  deriving Repr, DecidableEq

def emptyOutState : OutState := ⟨[], [], [], [], [], []⟩

/-- Go `(*OutgoingPktNumHandler).GetNextpacketNumber`: returns the current
number and stores its `uint32` successor. -/
def GetNextpacketNumber (s : OutState) (a : Addr) : OutState × Nat :=
  let seqNum := (lookupA s.packetNumbers a).getD 0
  ({ s with packetNumbers := setA s.packetNumbers a ((seqNum + 1) % 2 ^ 32) }, seqNum)

/-- Go `(*OutgoingPktNumHandler).ClearPacketNumbers`: delete all per-destination
state (the notified waiters are concurrency plumbing). -/
def ClearPacketNumbers (s : OutState) (a : Addr) : OutState :=
  ⟨removeA s.packetNumbers a, removeA s.openAcks a,
   removeA s.highestAckedContiguousPktNum a, removeA s.cwnd a,
   removeA s.ssthresh a, removeA s.cAvoidanceAcc a⟩

/-- Go `(*OutgoingPktNumHandler).AddOpenAck` (with `createOpenAck` inlined).
`none` models the assertion failure on a duplicate open ack.  On the
congestion-window-full error the defaults written for `highestAcked…` and
`cwnd` remain stored, as in the source, so the mutated state is returned with
the error message. -/
def AddOpenAck (initialCwnd : Int) (s : OutState) (a : Addr) (pktNum32 : Nat) :
    Option (OutState × Option String) :=
  let acksA := (lookupA s.openAcks a).getD []
  if (lookupA acksA pktNum32).isSome then none
  else
    let hac := (lookupA s.highestAckedContiguousPktNum a).getD (-1)
    let hacMap := if (lookupA s.highestAckedContiguousPktNum a).isSome
      then s.highestAckedContiguousPktNum else setA s.highestAckedContiguousPktNum a (-1)
    let s := { s with highestAckedContiguousPktNum := hacMap }
    let cwnd := (lookupA s.cwnd a).getD initialCwnd
    let cwndMap := if (lookupA s.cwnd a).isSome then s.cwnd else setA s.cwnd a initialCwnd
    let s := { s with cwnd := cwndMap }
    if (pktNum32 : Int) - hac > cwnd then
      some (s, some "Packet number exceeds congestion window")
    else
      some ({ s with openAcks := setA s.openAcks a (setA acksA pktNum32 RETRIES_PER_PACKET) },
        none)

/-- The advance loop of `removeOpenAck`: advance `highestAckedContiguous` while
the next `uint32` number has no open ack and does not pass the last assigned
number.  The conditions depend on the counter only through its `uint32` image,
which cycles with period `2^32`, so fuel `2^32 + 2` is exhausted exactly when
the Go loop never terminates (which happens when no open ack remains and
`packetNumbers[addr]` is 0). -/
def advanceHacLoop : Nat → OutState → Addr → Option OutState
  | 0, _, _ => none
  | fuel + 1, s, a =>
    let acks := (lookupA s.openAcks a).getD []
    let hac := (lookupA s.highestAckedContiguousPktNum a).getD 0
    let next32 := uint32OfInt (hac + 1)
    if (lookupA acks next32).isSome then some s
    else
      let pn := (lookupA s.packetNumbers a).getD 0
      let currentPktNum := (pn + 2 ^ 32 - 1) % 2 ^ 32
      if next32 > currentPktNum then some s
      else
        let hacMap := setA s.highestAckedContiguousPktNum a (hac + 1)
        advanceHacLoop fuel { s with highestAckedContiguousPktNum := hacMap } a

/-- Go `(*OutgoingPktNumHandler).removeOpenAck` (private): delete the open ack
(the code asserts it exists — `none`), advance the contiguous counter (`none`
also models the loop never terminating), then on a received ACK run slow start
or congestion avoidance. -/
def removeOpenAck (s : OutState) (a : Addr) (pktNum32 : Nat) (ackReceived : Bool) :
    Option OutState :=
  let acksA := (lookupA s.openAcks a).getD []
  if (lookupA acksA pktNum32).isNone then none
  else
    let acksA := removeA acksA pktNum32
    let acksMap := if acksA.isEmpty then removeA s.openAcks a else setA s.openAcks a acksA
    let s := { s with openAcks := acksMap }
    match advanceHacLoop (2 ^ 32 + 2) s a with
    | none => none
    | some s =>
      if ackReceived then
        let ssMap := if (lookupA s.ssthresh a).isSome then s.ssthresh
          else setA s.ssthresh a (2 ^ 63 - 1)
        let s := { s with ssthresh := ssMap }
        let cwnd : Int := (lookupA s.cwnd a).getD 0
        let ssthresh : Int := (lookupA s.ssthresh a).getD 0
        if cwnd < ssthresh then
          some { s with cwnd := setA s.cwnd a (cwnd + 1), cAvoidanceAcc := setA s.cAvoidanceAcc a 0 }
        else
          let accu : Int := (lookupA s.cAvoidanceAcc a).getD 0 + 1
          if accu ≥ cwnd then
            some { s with cwnd := setA s.cwnd a (cwnd + 1), cAvoidanceAcc := setA s.cAvoidanceAcc a 0 }
          else
            some { s with cAvoidanceAcc := setA s.cAvoidanceAcc a accu }
      else some s

/-- Go `(*OutgoingPktNumHandler).RemoveOpenAck` (public): silently return when
the open ack is absent. -/
def RemoveOpenAck (s : OutState) (a : Addr) (pktNum32 : Nat) : Option OutState :=
  if (lookupA ((lookupA s.openAcks a).getD []) pktNum32).isNone then some s
  else removeOpenAck s a pktNum32 true

/-- Go `(*OutgoingPktNumHandler).handleAckTimeout`.  `cooldownPassed` is the
oracle for `time.Since(lastCongestionEventTime[addr]) > ACK_TIMEOUT_DURATION`;
`resendFunc` has no effect on the tracker state. -/
def handleAckTimeout (initialCwnd : Int) (s : OutState) (a : Addr) (pktNum32 : Nat)
    (cooldownPassed : Bool) : Option OutState :=
  match lookupA ((lookupA s.openAcks a).getD []) pktNum32 with
  | none => some s
  | some retries =>
    let s :=
      if retries = RETRIES_PER_PACKET ∧ cooldownPassed then
        let cwnd := (lookupA s.cwnd a).getD 0
        { s with ssthresh := setA s.ssthresh a (max (cwnd / 2) 2),
                 cwnd := setA s.cwnd a (max (cwnd / 2) initialCwnd),
                 cAvoidanceAcc := setA s.cAvoidanceAcc a 0 }
      else s
    let retries' := retries - 1
    if retries' = 0 then removeOpenAck s a pktNum32 false
    else
      let acksMap := setA s.openAcks a (setA ((lookupA s.openAcks a).getD []) pktNum32 retries')
      some { s with openAcks := acksMap }

/-- A step of the outgoing tracker: one public call or one timer expiry.  Steps
whose embedding returns `none` (assertion failure or divergence) produce no
successor state. -/
inductive OutStep (ic : Int) : OutState → OutState → Prop where
  | getNext (s : OutState) (a : Addr) : OutStep ic s (GetNextpacketNumber s a).1
  | addOpenAck (s s' : OutState) (a : Addr) (pktNum32 : Nat) (e : Option String)
      (h : AddOpenAck ic s a pktNum32 = some (s', e)) : OutStep ic s s'
  | removeAck (s s' : OutState) (a : Addr) (pktNum32 : Nat)
      (h : RemoveOpenAck s a pktNum32 = some s') : OutStep ic s s'
  | ackTimeout (s s' : OutState) (a : Addr) (pktNum32 : Nat) (cooldownPassed : Bool)
      (h : handleAckTimeout ic s a pktNum32 cooldownPassed = some s') : OutStep ic s s'
  | clear (s : OutState) (a : Addr) : OutStep ic s (ClearPacketNumbers s a)

/-- States of the outgoing tracker reachable from the empty state. -/
inductive ReachableOut (ic : Int) : OutState → Prop where
  | init : ReachableOut ic emptyOutState
  | step {s s' : OutState} : ReachableOut ic s → OutStep ic s s' → ReachableOut ic s'

/-! ## Router (src/unnamed/part_002, src/routing/routingtable.go, src/routing/lsdb.go)

The router's three tables.  `NeighborEntry` is just its `NextHop` field. -/

/-- Go `routing.LSAEntry` (the `uint32` sequence number and the neighbor list). -/
structure LSAEntry where
  SeqNum : Nat
  Neighbors : List Addr
  deriving Repr, DecidableEq

structure RouterState where
  lsdb : List (Addr × LSAEntry)
  neighborTable : List (Addr × AddrPort)
  routingTable : List (Addr × AddrPort)
  deriving Repr, DecidableEq

/-- Go `math.MaxInt` (64-bit): the distance of an initially unreachable node. -/
def MaxIntGo : Nat := 2 ^ 63 - 1

/-- Go `routing.DijkstraNode` (the heap `index` field is positional here). -/
structure DNode where
  Addr : Addr
  NextHop : Option AddrPort
  Dist : Nat
  deriving Repr, DecidableEq

instance : Inhabited DNode := ⟨⟨0, none, 0⟩⟩

/-- `dijkstraPriorityQueue.Less`: min-heap on `Dist`. -/
def dnLess (x y : DNode) : Bool := x.Dist < y.Dist

def getN (l : List DNode) (i : Nat) : DNode := l.getD i default

def swapN (l : List DNode) (i j : Nat) : List DNode :=
  (l.set i (getN l j)).set j (getN l i)

/-- `container/heap`'s `down(i0, n)`: sift the element at `i` down below bound
`n`; returns the array and whether the element moved.  A child index is at
least `2 i + 1 > i`, so fuel `n` suffices. -/
def heapDownAux : Nat → List DNode → Nat → Nat → List DNode × Bool
  | 0, l, _, _ => (l, false)
  | fuel + 1, l, i, n =>
    let j1 := 2 * i + 1
    if j1 ≥ n then (l, false)
    else
      let j := if j1 + 1 < n ∧ dnLess (getN l (j1 + 1)) (getN l j1) then j1 + 1 else j1
      if ¬ dnLess (getN l j) (getN l i) then (l, false)
      else
        let res := heapDownAux fuel (swapN l i j) j n
        (res.1, true)

/-- `container/heap`'s `up(j)`: sift up towards the root; the parent index
`(j - 1) / 2` strictly decreases, so fuel `j + 1` suffices (at the root the Go
loop breaks because `(0 - 1) / 2 == 0` with integer division, matching
`(0 - 1) / 2 = 0` on `Nat`). -/
def heapUpAux : Nat → List DNode → Nat → List DNode
  | 0, l, _ => l
  | fuel + 1, l, j =>
    let i := (j - 1) / 2
    if i = j ∨ ¬ dnLess (getN l j) (getN l i) then l
    else heapUpAux fuel (swapN l i j) i

/-- `heap.Init`: sift down every non-leaf, from `n/2 - 1` to `0`. -/
def heapInitAux (n : Nat) : Nat → List DNode → List DNode
  | 0, l => l
  | k + 1, l => heapInitAux n k (heapDownAux n l k n).1

def heapInit (l : List DNode) : List DNode :=
  heapInitAux l.length (l.length / 2) l

/-- `heap.Pop`: swap the root with the last element, sift down within the
shortened bound, then remove and return the last element. -/
def heapPop (l : List DNode) : DNode × List DNode :=
  let n := l.length - 1
  let l := swapN l 0 n
  let l := (heapDownAux l.length l 0 n).1
  (getN l n, l.take n)

/-- `heap.Fix(i)`: sift down; if nothing moved, sift up. -/
def heapFix (l : List DNode) (i : Nat) : List DNode :=
  let res := heapDownAux l.length l i l.length
  if res.2 then res.1 else heapUpAux (i + 1) res.1 i

/-- The relaxation of one popped node's adjacent addresses in
`buildRoutingTable`: skip addresses already routed or equal to the local
address; find the neighbor's node by a linear scan of the queue (a missing node
means its LSA is absent — skip); update distance and first-hop anchor through
`heap.Fix` when a shorter path is found. -/
def relaxNeighbors (localAddr : Addr) (rt : List (Addr × AddrPort)) (node : DNode)
    (neighbors : List Addr) (queue : List DNode) : List DNode :=
  neighbors.foldl
    (fun q nbr =>
      if (lookupA rt nbr).isSome then q
      else if nbr = localAddr then q
      else
        match q.findIdx? (fun d => d.Addr == nbr) with
        | none => q
        | some idx =>
          if node.Dist + 1 < (getN q idx).Dist then
            heapFix (q.set idx ⟨nbr, node.NextHop, node.Dist + 1⟩) idx
          else q)
    queue

/-- The pop loop of `buildRoutingTable`: pop the minimum; an unreachable
(`MaxInt`) node goes to the not-routable list, a reachable one enters the
routing table and relaxes its LSA neighbors.  Each iteration shrinks the queue,
so fuel `queue.length` suffices. -/
def dijkstraLoop (lsdb : List (Addr × LSAEntry)) (localAddr : Addr) :
    Nat → List DNode → List (Addr × AddrPort) → List Addr →
      List (Addr × AddrPort) × List Addr
  | 0, _, rt, nr => (rt, nr)
  | fuel + 1, queue, rt, nr =>
    if queue.isEmpty then (rt, nr)
    else
      let pq := heapPop queue
      let node := pq.1
      let queue := pq.2
      if node.Dist = MaxIntGo then
        dijkstraLoop lsdb localAddr fuel queue rt (nr ++ [node.Addr])
      else
        let rt := setA rt node.Addr (node.NextHop.getD (0, 0))
        let neighbors := ((lookupA lsdb node.Addr).getD ⟨0, []⟩).Neighbors
        dijkstraLoop lsdb localAddr fuel (relaxNeighbors localAddr rt node neighbors queue) rt nr

/-- Go `(*Router).buildRoutingTable` (src/routing/routingtable.go): build the
initial queue from the LSDB (direct neighbors at distance 1 with their next
hop, others at `MaxInt`), heapify, run Dijkstra; returns the updated router and
the not-routable addresses.  `none` models the assertion that the LSDB is
non-empty (the public operations recompute an LSA first, so it never fires
there). -/
def buildRoutingTable (localAddr : Addr) (r : RouterState) :
    Option (RouterState × List Addr) :=
  if r.lsdb.isEmpty then none
  else
    let queue0 := (r.lsdb.filter (fun kv => kv.1 ≠ localAddr)).map
      (fun kv =>
        match lookupA r.neighborTable kv.1 with
        | some np => (⟨kv.1, some np, 1⟩ : DNode)
        | none => (⟨kv.1, none, MaxIntGo⟩ : DNode))
    let queue := heapInit queue0
    let res := dijkstraLoop r.lsdb localAddr queue.length queue [] []
    some ({ r with routingTable := res.1 }, res.2)

/-- The BFS loop of `getUnreachableHosts`: dequeue; skip visited nodes and
nodes without an LSA; otherwise mark visited, report unreachable (the code
asserts the report stays shorter than the not-routable list — `none` models
that panic) and enqueue the node's unvisited LSA neighbors.  Each iteration
consumes a queue element and every LSDB entry enqueues its neighbor list at
most once, so `bfsFuel` suffices. -/
def bfsLoop (lsdb : List (Addr × LSAEntry)) (nrLen : Nat) :
    Nat → List Addr → List Addr → List Addr → Option (List Addr)
  | 0, _, _, _ => none
  | fuel + 1, queue, visited, unreach =>
    match queue with
    | [] => some unreach
    | node :: queue =>
      if visited.contains node then bfsLoop lsdb nrLen fuel queue visited unreach
      else
        match lookupA lsdb node with
        | none => bfsLoop lsdb nrLen fuel queue visited unreach
        | some lsa =>
          if nrLen ≤ unreach.length then none
          else
            let visited := visited ++ [node]
            bfsLoop lsdb nrLen fuel
              (queue ++ lsa.Neighbors.filter (fun n => ¬ visited.contains n))
              visited (unreach ++ [node])

def bfsFuel (lsdb : List (Addr × LSAEntry)) (seeds : List Addr) : Nat :=
  seeds.length + (lsdb.map (fun kv => kv.2.Neighbors.length)).sum + 1

/-- Go `(*Router).getUnreachableHosts` (src/unnamed/part_002).  Returns the
reported unreachable hosts and the router's LSDB after the call.

The call mutates the removed neighbor's stored LSA: `slices.DeleteFunc` shifts
the elements of the backing array that the stored slice header still points to,
zeroing the tail, so after the owner is filtered out of the seeds the stored
`Neighbors` (whose length is unchanged) reads as the filtered list padded with
zero addresses.  `none` models the function's assertion panics (owner LSA
missing, or the unreachable list reaching the not-routable count). -/
def getUnreachableHosts (localAddr : Addr) (r : RouterState) (notRoutable : List Addr)
    (lsaOwner : Addr) (oldLSA : LSAEntry) : Option (List Addr × RouterState) :=
  match lookupA r.lsdb lsaOwner with
  | none => none
  | some currentLSA =>
    if currentLSA.Neighbors.length ≥ oldLSA.Neighbors.length then some ([], r)
    else
      let removedNeighbor :=
        (oldLSA.Neighbors.find? (fun n => ¬ currentLSA.Neighbors.contains n)).getD 0
      if (lookupA r.routingTable removedNeighbor).isSome ∨ removedNeighbor = localAddr then
        some ([], r)
      else
        match lookupA r.lsdb removedNeighbor with
        | none => some ([], r)
        | some removedLSA =>
          let seeds := removedLSA.Neighbors.filter (fun n => n ≠ lsaOwner)
          let storedNeighbors :=
            seeds ++ List.replicate (removedLSA.Neighbors.length - seeds.length) 0
          let lsdbMut := setA r.lsdb removedNeighbor ⟨removedLSA.SeqNum, storedNeighbors⟩
          let r := { r with lsdb := lsdbMut }
          if notRoutable.length = 0 then none
          else
            match bfsLoop r.lsdb notRoutable.length (bfsFuel r.lsdb seeds)
                seeds [removedNeighbor] [removedNeighbor] with
            | none => none
            | some out => some (out, r)

/-- Go `(*Router).recalculateLocalLSA` (src/routing/lsdb.go): next sequence
number (stored + 1, or 0 when absent) and the neighbor-table key set. -/
def recalculateLocalLSA (localAddr : Addr) (r : RouterState) : RouterState :=
  let seq := match lookupA r.lsdb localAddr with
    | some e => (e.SeqNum + 1) % 2 ^ 32
    | none => 0
  { r with lsdb := setA r.lsdb localAddr ⟨seq, r.neighborTable.map Prod.fst⟩ }

/-- Modelled from the spec: the private `removeNeighbor` helper is not among
the repository's files (only its callers are); §4.3 says `remove_neighbor`
"removes neighbor" from the neighbor table. -/
def removeNeighborTable (r : RouterState) (addr : Addr) : RouterState :=
  { r with neighborTable := removeA r.neighborTable addr }

/-- Modelled from the spec: the private `updateLSA` helper is not among the
repository's files (only its callers are); §4.3 says `update_lsa(owner, seq,
neighbors)` is a no-op when the stored sequence is ≥ `seq` and otherwise
replaces the stored LSA. -/
def updateLSAStore (r : RouterState) (srcAddr : Addr) (seqNum : Nat)
    (neighborAddresses : List Addr) : RouterState :=
  match lookupA r.lsdb srcAddr with
  | some e => if e.SeqNum ≥ seqNum then r
      else { r with lsdb := setA r.lsdb srcAddr ⟨seqNum, neighborAddresses⟩ }
  | none => { r with lsdb := setA r.lsdb srcAddr ⟨seqNum, neighborAddresses⟩ }

/-- Go `(*Router).RemoveNeighbor` (src/unnamed/part_002): remove the neighbor,
recalculate the local LSA, rebuild the routing table, and report the
unreachable hosts that are safe to clear. -/
def RemoveNeighbor (localAddr : Addr) (r : RouterState) (addr : Addr) :
    Option (List Addr × RouterState) :=
  let r := removeNeighborTable r addr
  let oldLocalLSA := (lookupA r.lsdb localAddr).getD ⟨0, []⟩
  let r := recalculateLocalLSA localAddr r
  match buildRoutingTable localAddr r with
  | none => none
  | some rn => getUnreachableHosts localAddr rn.1 rn.2 localAddr oldLocalLSA

/-- Go `(*Router).UpdateLSA` (src/unnamed/part_002). -/
def UpdateLSA (localAddr : Addr) (r : RouterState) (srcAddr : Addr) (seqNum : Nat)
    (neighborAddresses : List Addr) : Option (List Addr × RouterState) :=
  let oldLSA := (lookupA r.lsdb srcAddr).getD ⟨0, []⟩
  let r := updateLSAStore r srcAddr seqNum neighborAddresses
  match buildRoutingTable localAddr r with
  | none => none
  | some rn => getUnreachableHosts localAddr rn.1 rn.2 srcAddr oldLSA

/-- The LSDB deletions of `clearUnreachableHosts` (src/routing/router.go):
every reported host's LSA entry is deleted (the incoming/outgoing sequencing
and reconstruction state cleared alongside are modelled elsewhere). -/
def clearUnreachableLsdb (lsdb : List (Addr × LSAEntry)) (hosts : List Addr) :
    List (Addr × LSAEntry) :=
  hosts.foldl (fun m a => removeA m a) lsdb

/-! ## Forwarding (src/unnamed/part_007, `ForwardRouted`) -/

/-- Go `connection.ForwardRouted`: look up the next hop for the header's
destination (error if absent), fail when the TTL is already 0 (a `byte`, so
`<= 0` means `= 0`), else decrement the TTL, recompute the checksum and send to
the next hop.  The outgoing tracker state is passed through untouched — the
function registers no open ack.  The result carries the next hop, the packet
as sent, and the tracker. -/
def ForwardRouted (routingTable : List (Addr × AddrPort)) (out : OutState)
    (p : Packet) : Except String (AddrPort × Packet × OutState) :=
  match lookupA routingTable (beUint32 p.header.destAddr) with
  | none => .error "no next hop found for the destination address"
  | some nextHop =>
    if p.header.ttl = 0 then .error "packet TTL is already zero or less, cannot forward"
    else
      let p := { p with header := { p.header with ttl := p.header.ttl - 1 } }
      let p := SetChecksum p
      .ok (nextHop, p, out)

/-! ## LSA payload parsing (src/handler/lsa.go) -/

inductive LSAParseResult where
  | ok (srcAddr : Addr) (seqNum : Nat) (neighborAddresses : List Addr)
  | err (msg : String)
  | panicked (msg : String)
  deriving Repr, DecidableEq

/-- The neighbor loop of `parseLSAPayload`: 4-byte IPv4 addresses.  Under the
guard `len % 4 == 0` (and ≥ 8) every slice `payload[i:i+4]` is in bounds, and
`netip.AddrFromSlice` on 4 bytes always yields a valid IPv4 address. -/
def parseNeighborAddresses : List Nat → List Addr
  | b0 :: b1 :: b2 :: b3 :: rest => beUint32 [b0, b1, b2, b3] :: parseNeighborAddresses rest
  | _ => []

/-- Go `parseLSAPayload`.  The length guard is `8 + len(payload) % 4 != 8`,
which (by Go operator precedence) only checks `len % 4 == 0`; payloads of
length 0 or 4 then reach `payload[:4]` or `payload[4:8]` and crash with a
slice-bounds panic, modelled by `panicked`. -/
def parseLSAPayload (payload : List Nat) : LSAParseResult :=
  if 8 + payload.length % 4 ≠ 8 then .err "invalid payload length for LSA packet"
  else if payload.length < 4 then .panicked "slice bounds out of range [:4]"
  else
    let srcAddr := beUint32 (payload.take 4)
    if payload.length < 8 then .panicked "slice bounds out of range [4:8]"
    else
      .ok srcAddr (beUint32 (payload.drop 4)) (parseNeighborAddresses (payload.drop 8))

/-! ## Concrete scenario inputs

Host addresses are written as small positive numbers; packets used by the
scenario theorems and witnesses. -/

/-- A sample well-formed packet with an odd-length payload. -/
def pktW : Packet := ⟨⟨[10, 0, 0, 1], [10, 0, 0, 2], 66, 30, [0, 0], [0, 0, 0, 7]⟩, [1, 2, 3]⟩

/-- `SetChecksum pktW` with bit 0 of serialized byte 0 flipped (source address
byte `10` becomes `11`). -/
def pktWFlipped : Packet :=
  { SetChecksum pktW with
    header := { (SetChecksum pktW).header with sourceAddr := [11, 0, 0, 1] } }

/-- A packet from host 7 to host 9 with the given packet number and payload. -/
def pkt79 (pn : Nat) (payload : List Nat) : Packet :=
  ⟨⟨[0, 0, 0, 7], [0, 0, 0, 9], 64, 30, [0, 0], [0, 0, 0, pn]⟩, payload⟩

/-- The line graph `(101)-(102)-(103)-(104)` from the local router 102's view:
neighbors 101 and 103, full LSDB. -/
def lineRouter : RouterState :=
  { lsdb := [(101, ⟨0, [102]⟩), (102, ⟨0, [101, 103]⟩), (103, ⟨0, [102, 104]⟩),
             (104, ⟨0, [103]⟩)],
    neighborTable := [(101, (101, 10)), (103, (103, 10))],
    routingTable := [] }

/-- The ring `(101)-(102)-(103)-(104)-(101)` from router 102's view. -/
def ringRouter : RouterState :=
  { lsdb := [(101, ⟨0, [102, 104]⟩), (102, ⟨0, [101, 103]⟩), (103, ⟨0, [102, 104]⟩),
             (104, ⟨0, [103, 101]⟩)],
    neighborTable := [(101, (101, 10)), (103, (103, 10))],
    routingTable := [] }

/-- Router 101's view of the line `(101)-(102)-(103)-(104)`: used for the
`UpdateLSA` counterexample where 102's new LSA swaps neighbor 103 for 105
without changing the neighbor count. -/
def ceRouter : RouterState :=
  { lsdb := [(101, ⟨0, [102]⟩), (102, ⟨0, [101, 103]⟩), (103, ⟨0, [102, 104]⟩),
             (104, ⟨0, [103]⟩)],
    neighborTable := [(102, (102, 20))],
    routingTable := [] }

/-- Router 102's view of the line right after `RemoveNeighbor` has dropped
neighbor 103 from the neighbor table, recalculated the local LSA and rebuilt
the routing table — the state handed to `getUnreachableHosts`. -/
def c10Router : RouterState :=
  { lsdb := [(101, ⟨0, [102]⟩), (102, ⟨1, [101]⟩), (103, ⟨0, [102, 104]⟩), (104, ⟨0, [103]⟩)],
    neighborTable := [(101, (101, 10))],
    routingTable := [(101, (101, 10))] }

/-- The unreachable-host computation on `c10Router` for owner 102's LSA update
from `[101, 103]` to `[101]`. -/
def c10Out : List Addr × RouterState :=
  (getUnreachableHosts 102 c10Router [103, 104] 102 ⟨0, [101, 103]⟩).getD ([], c10Router)

/-- Deliver one FILE packet (destined to local host 9) through the handler
pipeline and then finish: the C5 file-reassembly run.  Metadata is packet 0
with payload `[102]`; the three data payloads are `[65]`, `[66]`, `[67]`. -/
def runFileOrder (order : List (Nat × List Nat)) : Option (List Nat × List Nat) :=
  let st := order.foldl (fun st pp => handleFilePacketLocal 9 st (pkt79 pp.1 pp.2))
    (emptyInState, NewOnDiskReconstructor)
  FinishFilePacketSequence st.2

def filePacketsGood : List (Nat × List Nat) := [(0, [102]), (1, [65]), (2, [66]), (3, [67])]

/-- The same four packets with data packet 1 delivered before the metadata. -/
def filePacketsBad : List (Nat × List Nat) := [(1, [65]), (0, [102]), (2, [66]), (3, [67])]

/-- Run a stream of packet numbers from host 7 through the incoming tracker of
local host 9, collecting each packet's duplicate flag. -/
def runInStream (pns : List Nat) : List Bool × InState :=
  pns.foldl
    (fun acc pn =>
      let res := IsDuplicatePacket 9 acc.2 (pkt79 pn [])
      (acc.1 ++ [res.isDup], res.state))
    ([], emptyInState)

/-- C2 counterexample trace (destination 5, initial cwnd 10): issue two packet
numbers, open an ack for 0, process its ACK (which advances the contiguous
counter past the never-opened number 1), then open an ack for 1. -/
def c2TraceS1 : OutState := (GetNextpacketNumber emptyOutState 5).1

def c2TraceS2 : OutState := (GetNextpacketNumber c2TraceS1 5).1

def c2TraceS3 : OutState := ((AddOpenAck 10 c2TraceS2 5 0).getD (emptyOutState, none)).1

def c2TraceS4 : OutState := (RemoveOpenAck c2TraceS3 5 0).getD emptyOutState

def c2TraceS5 : OutState := ((AddOpenAck 10 c2TraceS4 5 1).getD (emptyOutState, none)).1

/-- The claimed open-ack window invariant of C2: every open-ack key lies in
`(highest_acked_contiguous, highest_acked_contiguous + cwnd]`. -/
def OpenAckWindowInv (s : OutState) : Prop :=
  ∀ a ks k r, lookupA s.openAcks a = some ks → lookupA ks k = some r →
    ∃ hac cw, lookupA s.highestAckedContiguousPktNum a = some hac ∧
      lookupA s.cwnd a = some cw ∧ hac < (k : Int) ∧ (k : Int) ≤ hac + cw

/-- The claimed contiguous-counter invariant of C2 (ii): for every destination
with a stored highest-acked-contiguous number, that number is strictly below
the next packet number the tracker would assign (the stored counter, or 0 when
none is stored). -/
def HacBelowNextInv (s : OutState) : Prop :=
  ∀ a h, lookupA s.highestAckedContiguousPktNum a = some h →
    h < (((lookupA s.packetNumbers a).getD 0 : Nat) : Int)

/-- C2 counterexample trace against invariant (ii): open acks for the
never-issued packet numbers 3 and 0, then ACK 0 — the advance loop walks the
contiguous counter past 0, 1 and 2 while the packet-number counter still reads
0. -/
def c2TraceT1 : OutState := ((AddOpenAck 10 emptyOutState 5 3).getD (emptyOutState, none)).1

def c2TraceT2 : OutState := ((AddOpenAck 10 c2TraceT1 5 0).getD (emptyOutState, none)).1

def c2TraceT3 : OutState := (RemoveOpenAck c2TraceT2 5 0).getD emptyOutState

/-- The amended outgoing-tracker invariant: every stored slow-start threshold
is at least 2, every stored congestion window is at least the initial window,
and every destination with an open-ack entry has a stored congestion window. -/
def OutInv (ic : Int) (s : OutState) : Prop :=
  (∀ a v, lookupA s.ssthresh a = some v → 2 ≤ v) ∧
  (∀ a v, lookupA s.cwnd a = some v → ic ≤ v) ∧
  (∀ a ks, lookupA s.openAcks a = some ks → (lookupA s.cwnd a).isSome = true)

/-- C7 trace (destination 5, initial cwnd 2): the test's starting state with
`cwnd = 2`, `ssthresh = 1`, accumulator 0. -/
def c7Start : OutState :=
  { emptyOutState with ssthresh := [(5, 1)], cwnd := [(5, 2)], cAvoidanceAcc := [(5, 0)] }

def c7Issue (s : OutState) : OutState := (GetNextpacketNumber s 5).1

def c7Open (s : OutState) (pn : Nat) : OutState :=
  ((AddOpenAck 2 s 5 pn).getD (emptyOutState, none)).1

def c7Ack (s : OutState) (pn : Nat) : OutState := (RemoveOpenAck s 5 pn).getD emptyOutState

/-- After sending 0 and 1 and ACKing both. -/
def c7AfterAck01 : OutState :=
  c7Ack (c7Ack (c7Open (c7Issue (c7Open (c7Issue c7Start) 0)) 1) 0) 1

/-- … then sending 2 and 3 and ACKing both. -/
def c7AfterAck23 : OutState :=
  c7Ack (c7Ack (c7Open (c7Issue (c7Open (c7Issue c7AfterAck01) 2)) 3) 2) 3

/-- … then sending 4 and ACKing it. -/
def c7AfterAck4 : OutState := c7Ack (c7Open (c7Issue c7AfterAck23) 4) 4

/-- Claim-side reachability for the unreachable-host BFS: the closure of the
seed set under the LSDB adjacency, where only hosts with a stored LSA are
expanded. -/
inductive ReachLsdb (lsdb : List (Addr × LSAEntry)) (seeds : List Addr) : Addr → Prop where
  | seed {a : Addr} : a ∈ seeds → ReachLsdb lsdb seeds a
  | step {b : Addr} {e : LSAEntry} {a : Addr} : ReachLsdb lsdb seeds b →
      lookupA lsdb b = some e → a ∈ e.Neighbors → ReachLsdb lsdb seeds a

/-! ### Association-list map lemmas -/

theorem lookupA_append {κ β : Type} [DecidableEq κ] (m₁ m₂ : List (κ × β)) (b : κ) :
    lookupA (m₁ ++ m₂) b =
      if (lookupA m₁ b).isSome then lookupA m₁ b else lookupA m₂ b := by
  induction m₁ with
  | nil => simp [lookupA]
  | cons kv rest ih =>
    by_cases hk : kv.1 = b
    · simp [lookupA, hk]
    · simp only [List.cons_append, lookupA, if_neg hk]
      exact ih

theorem lookupA_setA {κ β : Type} [DecidableEq κ] (m : List (κ × β)) (a : κ) (v : β) (b : κ) :
    lookupA (setA m a v) b = if b = a then some v else lookupA m b := by
  induction m with
  | nil =>
    by_cases hb : b = a
    · simp [setA, lookupA, hb]
    · have hab : ¬ a = b := fun h => hb h.symm
      simp [setA, lookupA, hb, hab]
  | cons kv rest ih =>
    by_cases hk : kv.1 = a
    · by_cases hb : b = a
      · simp [setA, lookupA, hk, hb]
      · have hkb : ¬ kv.1 = b := fun h => hb ((h.symm.trans hk))
        have hab : ¬ a = b := fun h => hb h.symm
        simp [setA, lookupA, hk, hb, hkb, hab]
    · by_cases hbk : kv.1 = b
      · have hba : ¬ b = a := fun h => hk (hbk.trans h)
        simp [setA, lookupA, hk, hbk, hba]
      · simp only [setA, if_neg hk, lookupA, if_neg hbk]
        exact ih

theorem lookupA_removeA {κ β : Type} [DecidableEq κ] (m : List (κ × β)) (a b : κ) :
    lookupA (removeA m a) b = if b = a then none else lookupA m b := by
  induction m with
  | nil => simp only [removeA, List.filter_nil, lookupA]; split <;> rfl
  | cons kv rest ih =>
    by_cases hk : kv.1 = a
    · have hstep : removeA (kv :: rest) a = removeA rest a := by
        simp [removeA, List.filter, hk]
      rw [hstep, ih]
      by_cases hb : b = a
      · simp [hb]
      · have hkb : ¬ kv.1 = b := fun h => hb ((h.symm.trans hk))
        rw [if_neg hb, if_neg hb, lookupA, if_neg hkb]
    · have hstep : removeA (kv :: rest) a = kv :: removeA rest a := by
        simp [removeA, List.filter, hk]
      rw [hstep]
      by_cases hbk : kv.1 = b
      · have hba : ¬ b = a := fun h => hk (hbk.trans h)
        simp [lookupA, hbk, hba]
      · simp only [lookupA, if_neg hbk, ih]

/-! ### Checksum lemmas -/

theorem wordSum_append_even (l m : List Nat) (h : l.length % 2 = 0) :
    wordSum (l ++ m) = wordSum l + wordSum m := by
  induction l using wordSum.induct with
  | case1 => simp [wordSum]
  | case2 x => simp at h
  | case3 x y rest ih =>
    simp only [List.cons_append, wordSum, List.append_eq]
    rw [ih (by simp only [List.length_cons] at h; omega)]
    ring

theorem foldCarriesAux_spec (fuel : Nat) : ∀ s, s ≤ fuel + 65535 →
    foldCarriesAux fuel s ≤ 65535 ∧ foldCarriesAux fuel s % 65535 = s % 65535 ∧
      foldCarriesAux fuel s ≤ s ∧ (0 < s → 0 < foldCarriesAux fuel s) := by
  induction fuel with
  | zero =>
    intro s hs
    simp only [foldCarriesAux]
    exact ⟨by omega, by trivial, le_refl s, fun h => h⟩
  | succ fuel ih =>
    intro s hs
    simp only [foldCarriesAux]
    split
    · next h =>
      obtain ⟨h1, h2, h3, h4⟩ := ih (s % 65536 + s / 65536) (by omega)
      refine ⟨h1, by omega, by omega, fun _ => h4 (by omega)⟩
    · next h => omega

theorem foldCarries_le (s : Nat) : foldCarries s ≤ 65535 :=
  (foldCarriesAux_spec s s (by omega)).1

theorem foldCarries_mod (s : Nat) : foldCarries s % 65535 = s % 65535 :=
  (foldCarriesAux_spec s s (by omega)).2.1

theorem foldCarries_pos (s : Nat) (hs : 0 < s) : 0 < foldCarries s :=
  (foldCarriesAux_spec s s (by omega)).2.2.2 hs

theorem foldCarries_eq_top (s : Nat) :
    foldCarries s = 65535 ↔ s % 65535 = 0 ∧ 0 < s := by
  constructor
  · intro h
    have hm := foldCarries_mod s
    rw [h] at hm
    constructor
    · omega
    · by_contra hz
      push_neg at hz
      interval_cases s
      simp [foldCarries, foldCarriesAux] at h
  · rintro ⟨hmod, hpos⟩
    have h1 := foldCarries_le s
    have h2 := foldCarries_mod s
    have h3 := foldCarries_pos s hpos
    rw [hmod] at h2
    omega

theorem foldCarries_le_self (s : Nat) : foldCarries s ≤ s :=
  (foldCarriesAux_spec s s (by omega)).2.2.1

set_option maxRecDepth 100000

/-- Complementing a byte: for `b < 256`, Go's `^b` is `255 - b`. -/
theorem xor_255_byte : ∀ b : Fin 256, b.val ^^^ 255 = 255 - b.val := by decide

/-- Flipping bit `j` of a byte stays a byte and changes its value by exactly
`2 ^ j`, in one of the two directions. -/
theorem xor_two_pow_byte : ∀ b : Fin 256, ∀ j : Fin 8,
    b.val ^^^ 2 ^ j.val < 256 ∧
      (b.val ^^^ 2 ^ j.val = b.val + 2 ^ j.val ∨
       b.val = (b.val ^^^ 2 ^ j.val) + 2 ^ j.val) := by decide

/-- Flipping a bit in the tail commutes with the cons. -/
theorem flipBit_cons_succ (a : Nat) (l : List Nat) (n j : Nat) :
    flipBit (a :: l) (n + 1) j = a :: flipBit l n j := by
  simp [flipBit, List.getD]

theorem flipBit_cons_zero (a : Nat) (l : List Nat) (j : Nat) :
    flipBit (a :: l) 0 j = (a ^^^ 2 ^ j) :: l := by
  simp [flipBit, List.getD]

theorem wordSum_flipBit (data : List Nat) (i j : Nat)
    (hb : ∀ b ∈ data, b < 256) (hi : i < data.length) (hj : j < 8) :
    ∃ k, k < 16 ∧
      (wordSum (flipBit data i j) = wordSum data + 2 ^ k ∨
       wordSum data = wordSum (flipBit data i j) + 2 ^ k) := by
  induction data using wordSum.induct generalizing i with
  | case1 => simp at hi
  | case2 x =>
    have hi0 : i = 0 := by simp at hi; exact hi
    subst hi0
    have hx : x < 256 := hb x (by simp)
    have hbyte : x ^^^ 2 ^ j = x + 2 ^ j ∨ x = (x ^^^ 2 ^ j) + 2 ^ j :=
      (xor_two_pow_byte ⟨x, hx⟩ ⟨j, hj⟩).2
    rw [flipBit_cons_zero]
    refine ⟨j + 8, by omega, ?_⟩
    have hpow : (2 : Nat) ^ (j + 8) = 2 ^ j * 256 := by rw [pow_add]; norm_num
    rcases hbyte with hc | hc
    · left
      simp only [wordSum, hc, hpow]
      ring
    · right
      simp only [wordSum, hpow]
      nlinarith [hc]
  | case3 x y rest ih =>
    match i with
    | 0 =>
      have hx : x < 256 := hb x (by simp)
      have hbyte : x ^^^ 2 ^ j = x + 2 ^ j ∨ x = (x ^^^ 2 ^ j) + 2 ^ j :=
        (xor_two_pow_byte ⟨x, hx⟩ ⟨j, hj⟩).2
      rw [flipBit_cons_zero]
      refine ⟨j + 8, by omega, ?_⟩
      have hpow : (2 : Nat) ^ (j + 8) = 2 ^ j * 256 := by rw [pow_add]; norm_num
      rcases hbyte with hc | hc
      · left
        simp only [wordSum, hc, hpow]
        ring
      · right
        simp only [wordSum, hpow]
        nlinarith [hc]
    | 1 =>
      have hy : y < 256 := hb y (by simp)
      have hbyte : y ^^^ 2 ^ j = y + 2 ^ j ∨ y = (y ^^^ 2 ^ j) + 2 ^ j :=
        (xor_two_pow_byte ⟨y, hy⟩ ⟨j, hj⟩).2
      rw [flipBit_cons_succ, flipBit_cons_zero]
      refine ⟨j, by omega, ?_⟩
      rcases hbyte with hc | hc
      · left
        simp only [wordSum]
        omega
      · right
        simp only [wordSum]
        omega
    | n + 2 =>
      have hrest : n < rest.length := by simp at hi; omega
      obtain ⟨k, hk, hcase⟩ := ih n (fun b hbm => hb b (by simp [hbm])) hrest
      refine ⟨k, hk, ?_⟩
      rw [flipBit_cons_succ, flipBit_cons_succ]
      simp only [wordSum]
      omega

theorem wordSum_mid (A B C : List Nat) (u v k0 k1 : Nat)
    (hA : A.length % 2 = 0) (hB : B.length % 2 = 0) :
    wordSum (A ++ (B ++ u :: v :: k0 :: k1 :: C))
      = wordSum (A ++ (B ++ u :: v :: 0 :: 0 :: C)) + (k0 * 256 + k1) := by
  rw [wordSum_append_even _ _ hA, wordSum_append_even _ _ hA,
    wordSum_append_even _ _ hB, wordSum_append_even _ _ hB]
  simp only [wordSum]
  omega

/-- Substituting the two checksum bytes adds exactly their word value to the
packet's word sum (the checksum occupies an aligned 16-bit word at offset 10). -/
theorem wordSum_set_checksum (p : Packet) (hs : p.header.sourceAddr.length = 4)
    (hd : p.header.destAddr.length = 4) (c0 c1 : Nat) :
    wordSum (Packet.ToByteArray { p with header := { p.header with checksum := [c0, c1] } })
      = wordSum (Packet.ToByteArray { p with header := { p.header with checksum := [0, 0] } })
        + (c0 * 256 + c1) := by
  have := wordSum_mid p.header.sourceAddr p.header.destAddr
    (p.header.pktNum ++ p.payload) p.header.control p.header.ttl c0 c1
    (by rw [hs]) (by rw [hd])
  simpa [Packet.ToByteArray, List.append_assoc] using this

/-- `VerifyChecksum` holds exactly when the folded word sum of the serialized
packet is `0xFFFF`. -/
theorem VerifyChecksum_iff (q : Packet) :
    VerifyChecksum q = true ↔ foldCarries (wordSum q.ToByteArray) = 65535 := by
  have hle := foldCarries_le (wordSum q.ToByteArray)
  simp only [VerifyChecksum, calculateChecksum, decide_eq_true_eq]
  constructor
  · intro h
    injection h with h1 h2
    injection h2 with h3 h4
    omega
  · intro h
    rw [h]

theorem SetChecksum_eq (p : Packet) :
    SetChecksum p =
      { p with header :=
          { p.header with checksum :=
              [foldCarries (wordSum (Packet.ToByteArray
                  { p with header := { p.header with checksum := [0, 0] } })) / 256 ^^^ 255,
               foldCarries (wordSum (Packet.ToByteArray
                  { p with header := { p.header with checksum := [0, 0] } })) % 256 ^^^ 255] } } := by
  rfl

/-- The word sum of a packet after `SetChecksum`: the stored complement brings
the total to a multiple of `0xFFFF` (namely `raw + (0xFFFF - folded raw)`). -/
theorem wordSum_SetChecksum (p : Packet) (hs : p.header.sourceAddr.length = 4)
    (hd : p.header.destAddr.length = 4) :
    wordSum (SetChecksum p).ToByteArray
      = wordSum (Packet.ToByteArray { p with header := { p.header with checksum := [0, 0] } })
        + (65535 - foldCarries (wordSum (Packet.ToByteArray
            { p with header := { p.header with checksum := [0, 0] } }))) := by
  have hsle : foldCarries (wordSum (Packet.ToByteArray
      { p with header := { p.header with checksum := [0, 0] } })) ≤ 65535 := foldCarries_le _
  have h0 : foldCarries (wordSum (Packet.ToByteArray
        { p with header := { p.header with checksum := [0, 0] } })) / 256 ^^^ 255
      = 255 - foldCarries (wordSum (Packet.ToByteArray
        { p with header := { p.header with checksum := [0, 0] } })) / 256 :=
    xor_255_byte ⟨_, by omega⟩
  have h1 : foldCarries (wordSum (Packet.ToByteArray
        { p with header := { p.header with checksum := [0, 0] } })) % 256 ^^^ 255
      = 255 - foldCarries (wordSum (Packet.ToByteArray
        { p with header := { p.header with checksum := [0, 0] } })) % 256 :=
    xor_255_byte ⟨_, by omega⟩
  rw [SetChecksum_eq, h0, h1, wordSum_set_checksum p hs hd _ _]
  omega

/-- Checksum round-trip: a packet stamped by `SetChecksum` verifies. -/
theorem VerifyChecksum_SetChecksum (p : Packet) (hs : p.header.sourceAddr.length = 4)
    (hd : p.header.destAddr.length = 4) :
    VerifyChecksum (SetChecksum p) = true := by
  rw [VerifyChecksum_iff, foldCarries_eq_top, wordSum_SetChecksum p hs hd]
  set p0 : Packet := { p with header := { p.header with checksum := [0, 0] } } with hp0
  set r : Nat := wordSum p0.ToByteArray with hrdef
  have h1 : foldCarries r ≤ 65535 := foldCarries_le _
  have h2 : foldCarries r % 65535 = r % 65535 := foldCarries_mod _
  have h3 : foldCarries r ≤ r := foldCarries_le_self _
  constructor
  · omega
  · rcases Nat.eq_zero_or_pos r with hr | hr
    · have : foldCarries r = 0 := by rw [hr]; rfl
      omega
    · omega

/-- Every serialized byte of a well-formed, checksum-stamped packet is < 256. -/
theorem SetChecksum_bytes_lt (p : Packet) (hp : WFPacket p) :
    ∀ b ∈ (SetChecksum p).ToByteArray, b < 256 := by
  obtain ⟨⟨hs, hd, hc, hn, hctl, httl, hbs, hbd, hbc, hbn⟩, hpl⟩ := hp
  set p0 : Packet := { p with header := { p.header with checksum := [0, 0] } } with hp0
  set s : Nat := foldCarries (wordSum p0.ToByteArray) with hsdef
  have hsle : s ≤ 65535 := foldCarries_le _
  have hdiv : s / 256 < 256 := by omega
  have hmod : s % 256 < 256 := by omega
  have h0 : s / 256 ^^^ 255 = 255 - s / 256 := xor_255_byte ⟨s / 256, hdiv⟩
  have h1 : s % 256 ^^^ 255 = 255 - s % 256 := xor_255_byte ⟨s % 256, hmod⟩
  rw [SetChecksum_eq, ← hp0, ← hsdef]
  intro b hb
  simp only [Packet.ToByteArray, List.mem_append, List.mem_cons, List.not_mem_nil, or_false] at hb
  rcases hb with ((((hb | hb) | hb | hb) | hb | hb) | hb) | hb
  · exact hbs b hb
  · exact hbd b hb
  · omega
  · omega
  · omega
  · omega
  · exact hbn b hb
  · exact hpl b hb

/-- The length of the serialized byte array of a checksum-stamped packet. -/
theorem SetChecksum_length (p : Packet) (hs : p.header.sourceAddr.length = 4)
    (hd : p.header.destAddr.length = 4) (hn : p.header.pktNum.length = 4) :
    (SetChecksum p).ToByteArray.length = 16 + p.payload.length := by
  rw [SetChecksum_eq]
  simp [Packet.ToByteArray, hs, hd, hn]
  omega

/-- A packet whose serialization differs from a stamped packet's by one flipped
bit does not verify. -/
theorem VerifyChecksum_flipBit (p q : Packet) (hp : WFPacket p) (i j : Nat)
    (hi : i < (SetChecksum p).ToByteArray.length) (hj : j < 8)
    (hq : q.ToByteArray = flipBit (SetChecksum p).ToByteArray i j) :
    VerifyChecksum q = false := by
  obtain ⟨⟨hs, hd, -, -, -, -, -, -, -, -⟩, -⟩ := id hp
  have hver := VerifyChecksum_SetChecksum p hs hd
  rw [VerifyChecksum_iff, foldCarries_eq_top] at hver
  obtain ⟨hmod0, hpos⟩ := hver
  obtain ⟨k, hk, hdelta⟩ := wordSum_flipBit (SetChecksum p).ToByteArray i j
    (SetChecksum_bytes_lt p hp) hi hj
  have hk1 : 1 ≤ 2 ^ k := Nat.one_le_two_pow
  have hk2 : 2 ^ k ≤ 2 ^ 15 := Nat.pow_le_pow_right (by norm_num) (by omega)
  have : ¬ (foldCarries (wordSum q.ToByteArray) = 65535) := by
    rw [foldCarries_eq_top, hq]
    rintro ⟨hm, _⟩
    rcases hdelta with hd1 | hd1 <;> omega
  rcases hb : VerifyChecksum q with _ | _
  · rfl
  · exact absurd ((VerifyChecksum_iff q).mp hb) this

/-! ## Claim theorems -/

/-- **C4.** For every packet `P` (arbitrary well-formed header bytes and
arbitrary payload bytes, including odd-length payloads), verifying the checksum
of `SetChecksum P` returns true; and every packet whose serialization is
obtained from `SetChecksum P`'s by flipping exactly one bit fails
verification. -/
theorem claim_C4_checksum_roundtrip_bitflip (p : Packet) (hp : WFPacket p) :
    VerifyChecksum (SetChecksum p) = true ∧
      ∀ (q : Packet) (i j : Nat), i < (SetChecksum p).ToByteArray.length → j < 8 →
        q.ToByteArray = flipBit (SetChecksum p).ToByteArray i j →
        VerifyChecksum q = false :=
  ⟨VerifyChecksum_SetChecksum p hp.1.1 hp.1.2.1,
   fun q i j hi hj hq => VerifyChecksum_flipBit p q hp i j hi hj hq⟩

theorem claim_C4_witness :
    WFPacket pktW ∧ VerifyChecksum (SetChecksum pktW) = true ∧
      VerifyChecksum pktWFlipped = false :=
  ⟨by decide,
   (claim_C4_checksum_roundtrip_bitflip pktW (by decide)).1,
   (claim_C4_checksum_roundtrip_bitflip pktW (by decide)).2 pktWFlipped 0 0
     (by decide) (by decide) (by decide)⟩

/-- **C8.** `ForwardRouted`: when the TTL is already ≤ 0 before decrementing or
the destination has no routing-table entry, the call returns an error and sends
nothing; otherwise the packet goes to the routing-table next hop with its TTL
decremented by exactly one and its checksum recomputed over the modified
header, and the outgoing tracker (retransmission state) is untouched. -/
theorem claim_C8_forward_routed (rt : List (Addr × AddrPort)) (out : OutState) (p : Packet) :
    ((p.header.ttl = 0 ∨ lookupA rt (beUint32 p.header.destAddr) = none) →
      ∃ e, ForwardRouted rt out p = .error e) ∧
    (∀ nh, lookupA rt (beUint32 p.header.destAddr) = some nh → p.header.ttl ≠ 0 →
      ForwardRouted rt out p =
        .ok (nh, SetChecksum { p with header := { p.header with ttl := p.header.ttl - 1 } },
          out)) := by
  constructor
  · rintro (httl | hrt)
    · unfold ForwardRouted
      rcases h : lookupA rt (beUint32 p.header.destAddr) with _ | nh
      · exact ⟨_, rfl⟩
      · dsimp only
        rw [if_pos httl]
        exact ⟨_, rfl⟩
    · unfold ForwardRouted
      rw [hrt]
      exact ⟨_, rfl⟩
  · intro nh hnh httl
    unfold ForwardRouted
    rw [hnh]
    dsimp only
    rw [if_neg httl]

theorem claim_C8_witness :
    ForwardRouted [(9, (42, 7))] emptyOutState (pkt79 0 []) =
        .ok ((42, 7),
          SetChecksum { pkt79 0 [] with
            header := { (pkt79 0 []).header with ttl := (pkt79 0 []).header.ttl - 1 } },
          emptyOutState) ∧
      ∃ e, ForwardRouted [] emptyOutState (pkt79 0 []) = .error e :=
  ⟨(claim_C8_forward_routed [(9, (42, 7))] emptyOutState (pkt79 0 [])).2 (42, 7)
     (by decide) (by decide),
   (claim_C8_forward_routed [] emptyOutState (pkt79 0 [])).1 (Or.inr (by decide))⟩

/-- **C9** (code bug).  The parser is not total: the length guard
`8 + len(payload) % 4 != 8` only rejects lengths not divisible by 4, so the
empty payload and the 4-byte payload reach an out-of-range slice and panic
instead of returning an error; payloads with `len % 4 ≠ 0` do get an error, and
every payload with `len ≥ 8` and `len % 4 = 0` parses successfully. -/
theorem claim_C9_parse_lsa_totality :
    parseLSAPayload [] = .panicked "slice bounds out of range [:4]" ∧
    parseLSAPayload [0, 0, 0, 0] = .panicked "slice bounds out of range [4:8]" ∧
    (∀ pl : List Nat, pl.length % 4 ≠ 0 →
      parseLSAPayload pl = .err "invalid payload length for LSA packet") ∧
    (∀ pl : List Nat, 8 ≤ pl.length → pl.length % 4 = 0 →
      parseLSAPayload pl =
        .ok (beUint32 (pl.take 4)) (beUint32 (pl.drop 4))
          (parseNeighborAddresses (pl.drop 8))) := by
  refine ⟨by decide, by decide, ?_, ?_⟩
  · intro pl hmod
    unfold parseLSAPayload
    rw [if_pos (by omega)]
  · intro pl hlen hmod
    unfold parseLSAPayload
    rw [if_neg (by omega), if_neg (by omega), if_neg (by omega)]

theorem claim_C9_witness :
    parseLSAPayload [10, 0, 0, 1, 0, 0, 0, 5, 10, 0, 0, 2] =
        .ok (beUint32 [10, 0, 0, 1]) 5 [beUint32 [10, 0, 0, 2]] ∧
      parseLSAPayload [1, 2, 3] = .err "invalid payload length for LSA packet" := by
  constructor
  · have h := (claim_C9_parse_lsa_totality).2.2.2 [10, 0, 0, 1, 0, 0, 0, 5, 10, 0, 0, 2]
      (by decide) (by decide)
    rw [h]
    decide
  · exact (claim_C9_parse_lsa_totality).2.2.1 [1, 2, 3] (by decide)

/-- **C5** (code bug).  File reassembly through the handler pipeline: with the
metadata packet (number 0, payload `[102]`) delivered first, the finished file
is the concatenation of the three data payloads in ascending packet-number
order and the file name is the metadata payload; but when data packet 1 is
delivered before the metadata packet, `HandleIncomingFilePacket` initializes
`highestWrittenPktNum` to 1 without writing that payload, so the finished file
is missing `[65]` — the claim's "for every delivery order" fails. -/
theorem claim_C5_file_reassembly :
    runFileOrder filePacketsGood = some ([102], [65, 66, 67]) ∧
    runFileOrder filePacketsBad = some ([102], [66, 67]) := by decide

/-- `fileRecMatches` is true exactly when the reconstructor exists and reports
the given highest packet number. -/
theorem fileRecMatches_iff (o : Option FileRecState) (last : Nat) :
    fileRecMatches o last = true ↔ ∃ fr, o = some fr ∧ fileGetHighestPktNum fr = some last := by
  rcases o with _ | fr
  · simp [fileRecMatches]
  · unfold fileRecMatches
    rcases hg : fileGetHighestPktNum fr with _ | h
    · simp [hg]
    · simp [hg]

/-- `msgRecMatches` is true exactly when the reconstructor exists and reports
the given highest packet number. -/
theorem msgRecMatches_iff (o : Option MsgRecState) (last : Nat) :
    msgRecMatches o last = true ↔ ∃ mr, o = some mr ∧ msgGetHighestPktNum mr = some last := by
  rcases o with _ | mr
  · simp [msgRecMatches]
  · unfold msgRecMatches
    rcases hg : msgGetHighestPktNum mr with _ | h
    · simp [hg]
    · simp [hg]

/-- **C6.** For every non-duplicate FIN packet destined for the local address
with a payload of at least 4 bytes encoding `lastPktNum`: if the file
reconstructor exists and its highest packet number equals `lastPktNum`, exactly
the file stream is finished and its reconstructor cleared; otherwise if the
message reconstructor exists and its highest packet number equals `lastPktNum`,
exactly the message stream is finished and its reconstructor cleared; otherwise
neither is finished or cleared. -/
theorem claim_C6_fin_commit (localAddr : Addr) (inS : InState)
    (fileRec : Option FileRecState) (msgRec : Option MsgRecState) (p : Packet)
    (hdest : beUint32 p.header.destAddr = localAddr)
    (hlen : ¬ p.payload.length < 4)
    (herr : (IsDuplicatePacket localAddr inS p).errMsg = none)
    (hdup : (IsDuplicatePacket localAddr inS p).isDup = false) :
    ((∃ fr, fileRec = some fr ∧ fileGetHighestPktNum fr = some (beUint32 p.payload)) →
      (handleFinish localAddr inS fileRec msgRec p).outcome = .fileFinished ∧
      (handleFinish localAddr inS fileRec msgRec p).fileRec = none ∧
      (handleFinish localAddr inS fileRec msgRec p).msgRec = msgRec) ∧
    ((∀ fr, fileRec = some fr → fileGetHighestPktNum fr ≠ some (beUint32 p.payload)) →
      (∃ mr, msgRec = some mr ∧ msgGetHighestPktNum mr = some (beUint32 p.payload)) →
      (handleFinish localAddr inS fileRec msgRec p).outcome = .msgFinished ∧
      (handleFinish localAddr inS fileRec msgRec p).msgRec = none ∧
      (handleFinish localAddr inS fileRec msgRec p).fileRec = fileRec) ∧
    ((∀ fr, fileRec = some fr → fileGetHighestPktNum fr ≠ some (beUint32 p.payload)) →
      (∀ mr, msgRec = some mr → msgGetHighestPktNum mr ≠ some (beUint32 p.payload)) →
      (handleFinish localAddr inS fileRec msgRec p).outcome = .noCommit ∧
      (handleFinish localAddr inS fileRec msgRec p).fileRec = fileRec ∧
      (handleFinish localAddr inS fileRec msgRec p).msgRec = msgRec ∧
      (handleFinish localAddr inS fileRec msgRec p).inState =
        (IsDuplicatePacket localAddr inS p).state) := by
  have hne : ¬ beUint32 p.header.destAddr ≠ localAddr := fun h => h hdest
  have hiss : ¬ (IsDuplicatePacket localAddr inS p).errMsg.isSome = true := by
    rw [herr]; simp
  have hnd : ¬ (IsDuplicatePacket localAddr inS p).isDup = true := by
    rw [hdup]; simp
  refine ⟨?_, ?_, ?_⟩
  · intro hex
    have hfm : fileRecMatches fileRec (beUint32 p.payload) = true :=
      (fileRecMatches_iff fileRec (beUint32 p.payload)).2 hex
    unfold handleFinish
    rw [if_neg hne, if_neg hlen]
    dsimp only
    rw [if_neg hiss, if_neg hnd, if_pos hfm]
    exact ⟨rfl, rfl, rfl⟩
  · intro hfile hex
    have hfm : ¬ fileRecMatches fileRec (beUint32 p.payload) = true := by
      rw [fileRecMatches_iff]
      rintro ⟨fr, hfr, hh⟩
      exact hfile fr hfr hh
    have hmm : msgRecMatches msgRec (beUint32 p.payload) = true :=
      (msgRecMatches_iff msgRec (beUint32 p.payload)).2 hex
    unfold handleFinish
    rw [if_neg hne, if_neg hlen]
    dsimp only
    rw [if_neg hiss, if_neg hnd, if_neg hfm, if_pos hmm]
    exact ⟨rfl, rfl, rfl⟩
  · intro hfile hmsg
    have hfm : ¬ fileRecMatches fileRec (beUint32 p.payload) = true := by
      rw [fileRecMatches_iff]
      rintro ⟨fr, hfr, hh⟩
      exact hfile fr hfr hh
    have hmm : ¬ msgRecMatches msgRec (beUint32 p.payload) = true := by
      rw [msgRecMatches_iff]
      rintro ⟨mr, hmr, hh⟩
      exact hmsg mr hmr hh
    unfold handleFinish
    rw [if_neg hne, if_neg hlen]
    dsimp only
    rw [if_neg hiss, if_neg hnd, if_neg hfm, if_neg hmm]
    exact ⟨rfl, rfl, rfl, rfl⟩

theorem claim_C6_witness :
    (handleFinish 9 emptyInState (some { NewOnDiskReconstructor with highestUnwrittenPktNum := 3 })
        none (pkt79 0 [0, 0, 0, 3])).outcome = FinOutcome.fileFinished ∧
      (handleFinish 9 emptyInState
        (some { NewOnDiskReconstructor with highestUnwrittenPktNum := 3 })
        none (pkt79 0 [0, 0, 0, 3])).fileRec = none := by
  have h := (claim_C6_fin_commit 9 emptyInState
    (some { NewOnDiskReconstructor with highestUnwrittenPktNum := 3 }) none
    (pkt79 0 [0, 0, 0, 3]) (by decide) (by decide) (by decide) (by decide)).1
    ⟨{ NewOnDiskReconstructor with highestUnwrittenPktNum := 3 }, rfl, by decide⟩
  exact ⟨h.1, h.2.1⟩

/-- Characterization of the advance loop of `IsDuplicatePacket`, at any
sufficient fuel: the final highest number is at least the starting one, every
number in the advanced range was in the future set, the successor of the final
highest is not in the future set, and the final future set keeps exactly the
members outside the advanced range. -/
theorem advanceContiguous_spec (fuel : Nat) :
    ∀ (fut : List Int) (high : Int), fut.length ≤ fuel →
      high ≤ (advanceContiguous fuel fut high).1 ∧
      (∀ k : Int, high < k → k ≤ (advanceContiguous fuel fut high).1 → k ∈ fut) ∧
      ((advanceContiguous fuel fut high).1 + 1) ∉ fut ∧
      (∀ x : Int, x ∈ (advanceContiguous fuel fut high).2 ↔
        x ∈ fut ∧ ¬(high < x ∧ x ≤ (advanceContiguous fuel fut high).1)) := by
  induction fuel with
  | zero =>
    intro fut high hlen
    have hnil : fut = [] := List.eq_nil_of_length_eq_zero (Nat.le_zero.mp hlen)
    subst hnil
    refine ⟨le_refl _, ?_, ?_, ?_⟩
    · intro k h1 h2
      simp only [advanceContiguous] at h2
      exact absurd (h1.trans_le h2) (lt_irrefl _)
    · simp [advanceContiguous]
    · intro x
      simp [advanceContiguous]
  | succ n ih =>
    intro fut high hlen
    by_cases hmem : (high + 1) ∈ fut
    · have heq : advanceContiguous (n + 1) fut high =
          if (high + 1) ∈ fut then advanceContiguous n (fut.filter (· ≠ high + 1)) (high + 1)
          else (high, fut) := rfl
      have hstep : advanceContiguous (n + 1) fut high =
          advanceContiguous n (fut.filter (· ≠ high + 1)) (high + 1) := by
        rw [heq, if_pos hmem]
      have hlt : (fut.filter (· ≠ high + 1)).length < fut.length := by
        apply List.length_filter_lt_length_iff_exists.mpr
        exact ⟨high + 1, hmem, by simp⟩
      obtain ⟨ih1, ih2, ih3, ih4⟩ := ih (fut.filter (· ≠ high + 1)) (high + 1) (by omega)
      rw [hstep]
      refine ⟨by omega, ?_, ?_, ?_⟩
      · intro k h1 h2
        by_cases hk : k = high + 1
        · rw [hk]; exact hmem
        · have hkm := ih2 k (by omega) h2
          exact (List.mem_filter.mp hkm).1
      · intro hc
        apply ih3
        rw [List.mem_filter]
        refine ⟨hc, ?_⟩
        have hne1 : (advanceContiguous n (fut.filter (· ≠ high + 1)) (high + 1)).1 + 1 ≠
            high + 1 := by omega
        simpa using hne1
      · intro x
        rw [ih4 x, List.mem_filter]
        constructor
        · rintro ⟨⟨hxf, hxne⟩, hnot⟩
          have hne' : x ≠ high + 1 := by simpa using hxne
          refine ⟨hxf, ?_⟩
          rintro ⟨ha, hb⟩
          exact hnot ⟨by omega, hb⟩
        · rintro ⟨hxf, hnot⟩
          have hne' : x ≠ high + 1 := by
            intro he
            exact hnot ⟨by omega, by omega⟩
          refine ⟨⟨hxf, by simpa using hne'⟩, ?_⟩
          rintro ⟨ha, hb⟩
          exact hnot ⟨by omega, hb⟩
    · have heq : advanceContiguous (n + 1) fut high =
          if (high + 1) ∈ fut then advanceContiguous n (fut.filter (· ≠ high + 1)) (high + 1)
          else (high, fut) := rfl
      have hstep : advanceContiguous (n + 1) fut high = (high, fut) := by
        rw [heq, if_neg hmem]
      rw [hstep]
      refine ⟨le_refl _, ?_, hmem, ?_⟩
      · intro k h1 h2
        exact absurd (h1.trans_le h2) (lt_irrefl _)
      · intro x
        constructor
        · intro hx
          exact ⟨hx, fun hc => absurd (hc.1.trans_le hc.2) (lt_irrefl _)⟩
        · rintro ⟨hx, _⟩
          exact hx

/-- **C3.** Incoming duplicate classification: on the stream
`0,5,5,0,1,3,3,4,2` from a fresh source, the first occurrence of each number is
NEW (`false`), every repeat is DUPLICATE (`true`), and afterwards the stored
highest contiguous number is `5`; and in general, a packet destined for the
local address whose number is exactly `highest + 1` is NEW, advances the
stored highest number past every now-contiguous entry of the future set
(each advanced-over number was in the future set, the successor of the new
highest is not), and removes exactly the advanced-over entries. -/
theorem claim_C3_incoming_duplicates :
    ((runInStream [0, 5, 5, 0, 1, 3, 3, 4, 2]).1 =
        [false, false, true, true, false, false, true, false, false] ∧
      GetHighestContiguousSeqNum (runInStream [0, 5, 5, 0, 1, 3, 3, 4, 2]).2 7 = 5) ∧
    ∀ (localAddr : Addr) (s : InState) (p : Packet),
      beUint32 p.header.destAddr = localAddr →
      (beUint32 p.header.pktNum : Int) =
          (lookupA s.highestPktNum (beUint32 p.header.sourceAddr)).getD (-1) + 1 →
      (IsDuplicatePacket localAddr s p).isDup = false ∧
      (IsDuplicatePacket localAddr s p).errMsg = none ∧
      ∃ h' : Int,
        lookupA (IsDuplicatePacket localAddr s p).state.highestPktNum
            (beUint32 p.header.sourceAddr) = some h' ∧
        (beUint32 p.header.pktNum : Int) ≤ h' ∧
        (∀ k : Int, (beUint32 p.header.pktNum : Int) < k → k ≤ h' →
          k ∈ (lookupA s.futurePktNums (beUint32 p.header.sourceAddr)).getD []) ∧
        (h' + 1) ∉ (lookupA s.futurePktNums (beUint32 p.header.sourceAddr)).getD [] ∧
        (∀ x : Int,
          x ∈ (lookupA (IsDuplicatePacket localAddr s p).state.futurePktNums
              (beUint32 p.header.sourceAddr)).getD [] ↔
            x ∈ (lookupA s.futurePktNums (beUint32 p.header.sourceAddr)).getD [] ∧
              ¬((beUint32 p.header.pktNum : Int) < x ∧ x ≤ h')) := by
  refine ⟨⟨by decide, by decide⟩, ?_⟩
  intro localAddr s p hdest hseq
  have hne : ¬ beUint32 p.header.destAddr ≠ localAddr := fun h => h hdest
  have hres : IsDuplicatePacket localAddr s p =
      ⟨false, none,
        { highestPktNum := setA s.highestPktNum (beUint32 p.header.sourceAddr)
            (advanceContiguous
              ((lookupA s.futurePktNums (beUint32 p.header.sourceAddr)).getD []).length
              ((lookupA s.futurePktNums (beUint32 p.header.sourceAddr)).getD [])
              (beUint32 p.header.pktNum : Int)).1
          futurePktNums :=
            if (advanceContiguous
                ((lookupA s.futurePktNums (beUint32 p.header.sourceAddr)).getD []).length
                ((lookupA s.futurePktNums (beUint32 p.header.sourceAddr)).getD [])
                (beUint32 p.header.pktNum : Int)).2.isEmpty then
              removeA s.futurePktNums (beUint32 p.header.sourceAddr)
            else
              setA s.futurePktNums (beUint32 p.header.sourceAddr)
                (advanceContiguous
                  ((lookupA s.futurePktNums (beUint32 p.header.sourceAddr)).getD []).length
                  ((lookupA s.futurePktNums (beUint32 p.header.sourceAddr)).getD [])
                  (beUint32 p.header.pktNum : Int)).2 }⟩ := by
    unfold IsDuplicatePacket
    rw [if_neg hne]
    dsimp only
    rw [if_neg (by omega), if_pos hseq]
  obtain ⟨hs1, hs2, hs3, hs4⟩ :=
    advanceContiguous_spec
      ((lookupA s.futurePktNums (beUint32 p.header.sourceAddr)).getD []).length
      ((lookupA s.futurePktNums (beUint32 p.header.sourceAddr)).getD [])
      (beUint32 p.header.pktNum : Int) (le_refl _)
  rw [hres]
  refine ⟨rfl, rfl, (advanceContiguous _ _ _).1, ?_, hs1, hs2, hs3, ?_⟩
  · dsimp only
    rw [lookupA_setA]
    simp
  · intro x
    dsimp only
    by_cases hemp : (advanceContiguous
        ((lookupA s.futurePktNums (beUint32 p.header.sourceAddr)).getD []).length
        ((lookupA s.futurePktNums (beUint32 p.header.sourceAddr)).getD [])
        (beUint32 p.header.pktNum : Int)).2.isEmpty
    · rw [if_pos hemp, lookupA_removeA, if_pos rfl]
      have hsub : x ∈ (advanceContiguous
          ((lookupA s.futurePktNums (beUint32 p.header.sourceAddr)).getD []).length
          ((lookupA s.futurePktNums (beUint32 p.header.sourceAddr)).getD [])
          (beUint32 p.header.pktNum : Int)).2 ↔ x ∈ ([] : List Int) := by
        rw [List.isEmpty_iff] at hemp
        rw [hemp]
      rw [← hs4, hsub]
      simp
    · rw [if_neg hemp, lookupA_setA, if_pos rfl]
      exact hs4 x

theorem claim_C3_witness :
    (IsDuplicatePacket 9 ⟨[(7, 1)], [(7, [3, 5])]⟩ (pkt79 2 [])).isDup = false ∧
      (IsDuplicatePacket 9 ⟨[(7, 1)], [(7, [3, 5])]⟩ (pkt79 2 [])).errMsg = none :=
  ⟨(claim_C3_incoming_duplicates.2 9 ⟨[(7, 1)], [(7, [3, 5])]⟩ (pkt79 2 [])
      (by decide) (by decide)).1,
   (claim_C3_incoming_duplicates.2 9 ⟨[(7, 1)], [(7, [3, 5])]⟩ (pkt79 2 [])
      (by decide) (by decide)).2.1⟩

/-- The contiguous-advance loop of `removeOpenAck` only modifies the
`highestAckedContiguousPktNum` map. -/
theorem advanceHacLoop_frame (fuel : Nat) :
    ∀ (s : OutState) (a : Addr) (s' : OutState), advanceHacLoop fuel s a = some s' →
      s'.packetNumbers = s.packetNumbers ∧ s'.openAcks = s.openAcks ∧
      s'.cwnd = s.cwnd ∧ s'.ssthresh = s.ssthresh ∧ s'.cAvoidanceAcc = s.cAvoidanceAcc := by
  induction fuel with
  | zero =>
    intro s a s' h
    exact absurd h (by simp [advanceHacLoop])
  | succ n ih =>
    intro s a s' h
    rw [advanceHacLoop] at h
    dsimp only at h
    by_cases h1 : (lookupA ((lookupA s.openAcks a).getD [])
        (uint32OfInt ((lookupA s.highestAckedContiguousPktNum a).getD 0 + 1))).isSome = true
    · rw [if_pos h1] at h
      injection h with h
      subst h
      exact ⟨rfl, rfl, rfl, rfl, rfl⟩
    · rw [if_neg h1] at h
      by_cases h2 : uint32OfInt ((lookupA s.highestAckedContiguousPktNum a).getD 0 + 1) >
          ((lookupA s.packetNumbers a).getD 0 + 2 ^ 32 - 1) % 2 ^ 32
      · rw [if_pos h2] at h
        injection h with h
        subst h
        exact ⟨rfl, rfl, rfl, rfl, rfl⟩
      · rw [if_neg h2] at h
        exact ih { s with highestAckedContiguousPktNum := setA s.highestAckedContiguousPktNum a ((lookupA s.highestAckedContiguousPktNum a).getD 0 + 1) } a s' h

/-- **C7.** Slow start and congestion avoidance.  Concretely, starting from
`cwnd = 2, ssthresh = 1` (forced avoidance) for destination 5: after ACKs of
packets 0 and 1, `cwnd = 3` and the accumulator is 0; after further ACKs of 2
and 3, `cwnd = 3` and the accumulator is 2; one more ACK gives `cwnd = 4` and
accumulator 0.  In general, processing an ACK in slow start (`cwnd < ssthresh`)
increments `cwnd` and zeroes the accumulator; in congestion avoidance it
increments the accumulator, and when the accumulator reaches `cwnd` it
increments `cwnd` and zeroes the accumulator. -/
theorem claim_C7_congestion_update :
    (lookupA c7AfterAck01.cwnd 5 = some 3 ∧ lookupA c7AfterAck01.cAvoidanceAcc 5 = some 0 ∧
      lookupA c7AfterAck23.cwnd 5 = some 3 ∧ lookupA c7AfterAck23.cAvoidanceAcc 5 = some 2 ∧
      lookupA c7AfterAck4.cwnd 5 = some 4 ∧ lookupA c7AfterAck4.cAvoidanceAcc 5 = some 0) ∧
    ∀ (s : OutState) (a : Addr) (pn : Nat) (s' : OutState) (cw ss acc : Int),
      lookupA s.cwnd a = some cw → lookupA s.ssthresh a = some ss →
      lookupA s.cAvoidanceAcc a = some acc →
      removeOpenAck s a pn true = some s' →
      (cw < ss →
        lookupA s'.cwnd a = some (cw + 1) ∧ lookupA s'.cAvoidanceAcc a = some 0) ∧
      (¬ cw < ss → acc + 1 ≥ cw →
        lookupA s'.cwnd a = some (cw + 1) ∧ lookupA s'.cAvoidanceAcc a = some 0) ∧
      (¬ cw < ss → acc + 1 < cw →
        lookupA s'.cwnd a = some cw ∧ lookupA s'.cAvoidanceAcc a = some (acc + 1)) := by
  refine ⟨⟨by decide, by decide, by decide, by decide, by decide, by decide⟩, ?_⟩
  intro s a pn s' cw ss acc hcw hss hacc hrem
  unfold removeOpenAck at hrem
  by_cases hnone : (lookupA ((lookupA s.openAcks a).getD []) pn).isNone = true
  · rw [if_pos hnone] at hrem
    exact absurd hrem (by simp)
  · rw [if_neg hnone] at hrem
    dsimp only at hrem
    rcases hadv : advanceHacLoop (2 ^ 32 + 2)
        { s with openAcks :=
            if (removeA ((lookupA s.openAcks a).getD []) pn).isEmpty = true then
              removeA s.openAcks a
            else setA s.openAcks a (removeA ((lookupA s.openAcks a).getD []) pn) } a
      with _ | s₁
    · rw [hadv] at hrem
      exact absurd hrem (by simp)
    · rw [hadv] at hrem
      dsimp only at hrem
      obtain ⟨hf1, hf2, hf3, hf4, hf5⟩ := advanceHacLoop_frame (2 ^ 32 + 2) _ a s₁ hadv
      have hcw1 : lookupA s₁.cwnd a = some cw := by rw [hf3]; exact hcw
      have hss1 : lookupA s₁.ssthresh a = some ss := by rw [hf4]; exact hss
      have hacc1 : lookupA s₁.cAvoidanceAcc a = some acc := by rw [hf5]; exact hacc
      simp only [hss1, hcw1, hacc1, Option.isSome_some, Option.getD_some, eq_self_iff_true,
        if_true] at hrem
      refine ⟨?_, ?_, ?_⟩
      · intro hlt
        rw [if_pos hlt] at hrem
        injection hrem with hrem
        subst hrem
        constructor
        · dsimp only
          rw [lookupA_setA, if_pos rfl]
        · dsimp only
          rw [lookupA_setA, if_pos rfl]
      · intro hge hge2
        rw [if_neg hge, if_pos hge2] at hrem
        injection hrem with hrem
        subst hrem
        constructor
        · dsimp only
          rw [lookupA_setA, if_pos rfl]
        · dsimp only
          rw [lookupA_setA, if_pos rfl]
      · intro hge hlt2
        rw [if_neg hge, if_neg (by omega)] at hrem
        injection hrem with hrem
        subst hrem
        constructor
        · dsimp only
          exact hcw1
        · dsimp only
          rw [lookupA_setA, if_pos rfl]

theorem claim_C7_witness :
    lookupA ((removeOpenAck (c7Open (c7Issue c7Start) 0) 5 0 true).getD
        emptyOutState).cAvoidanceAcc 5 = some 1 :=
  ((claim_C7_congestion_update.2 (c7Open (c7Issue c7Start) 0) 5 0
      ((removeOpenAck (c7Open (c7Issue c7Start) 0) 5 0 true).getD emptyOutState) 2 1 0
      (by decide) (by decide) (by decide) (by decide)).2.2 (by decide) (by decide)).2

/-- The empty tracker satisfies the invariant. -/
theorem outInv_empty (ic : Int) : OutInv ic emptyOutState := by
  refine ⟨?_, ?_, ?_⟩
  · intro a v h
    exact absurd h (by simp [emptyOutState, lookupA])
  · intro a v h
    exact absurd h (by simp [emptyOutState, lookupA])
  · intro a ks h
    exact absurd h (by simp [emptyOutState, lookupA])

/-- `GetNextpacketNumber` touches only the packet-number map. -/
theorem outInv_getNext (ic : Int) (s : OutState) (a : Addr) (h : OutInv ic s) :
    OutInv ic (GetNextpacketNumber s a).1 := h

/-- `ClearPacketNumbers` only deletes entries. -/
theorem outInv_clear (ic : Int) (s : OutState) (a : Addr) (h : OutInv ic s) :
    OutInv ic (ClearPacketNumbers s a) := by
  obtain ⟨h1, h2, h3⟩ := h
  refine ⟨?_, ?_, ?_⟩
  · intro b v hb
    rw [show (ClearPacketNumbers s a).ssthresh = removeA s.ssthresh a from rfl,
      lookupA_removeA] at hb
    by_cases hba : b = a
    · rw [if_pos hba] at hb
      exact absurd hb (by simp)
    · rw [if_neg hba] at hb
      exact h1 b v hb
  · intro b v hb
    rw [show (ClearPacketNumbers s a).cwnd = removeA s.cwnd a from rfl, lookupA_removeA] at hb
    by_cases hba : b = a
    · rw [if_pos hba] at hb
      exact absurd hb (by simp)
    · rw [if_neg hba] at hb
      exact h2 b v hb
  · intro b ks hb
    rw [show (ClearPacketNumbers s a).openAcks = removeA s.openAcks a from rfl,
      lookupA_removeA] at hb
    by_cases hba : b = a
    · rw [if_pos hba] at hb
      exact absurd hb (by simp)
    · rw [if_neg hba] at hb
      rw [show (ClearPacketNumbers s a).cwnd = removeA s.cwnd a from rfl, lookupA_removeA,
        if_neg hba]
      exact h3 b ks hb

/-- `AddOpenAck` preserves the invariant (in both the error and success cases). -/
theorem outInv_addOpenAck (ic : Int) (s : OutState) (a : Addr) (pn : Nat) (s' : OutState)
    (e : Option String) (h : AddOpenAck ic s a pn = some (s', e)) (hinv : OutInv ic s) :
    OutInv ic s' := by
  obtain ⟨h1, h2, h3⟩ := hinv
  have hcwndMap : ∀ b v,
      lookupA (if (lookupA s.cwnd a).isSome = true then s.cwnd else setA s.cwnd a ic) b =
        some v → ic ≤ v := by
    intro b v hb
    by_cases hc : (lookupA s.cwnd a).isSome = true
    · rw [if_pos hc] at hb
      exact h2 b v hb
    · rw [if_neg hc, lookupA_setA] at hb
      by_cases hba : b = a
      · rw [if_pos hba] at hb
        injection hb with hb
        omega
      · rw [if_neg hba] at hb
        exact h2 b v hb
  have hcwndMapSome : ∀ b, (lookupA s.cwnd b).isSome = true →
      (lookupA (if (lookupA s.cwnd a).isSome = true then s.cwnd else setA s.cwnd a ic)
        b).isSome = true := by
    intro b hb
    by_cases hc : (lookupA s.cwnd a).isSome = true
    · rw [if_pos hc]
      exact hb
    · rw [if_neg hc, lookupA_setA]
      by_cases hba : b = a
      · rw [if_pos hba]
        rfl
      · rw [if_neg hba]
        exact hb
  have hcwndMapA :
      (lookupA (if (lookupA s.cwnd a).isSome = true then s.cwnd else setA s.cwnd a ic)
        a).isSome = true := by
    by_cases hc : (lookupA s.cwnd a).isSome = true
    · rw [if_pos hc]
      exact hc
    · rw [if_neg hc, lookupA_setA, if_pos rfl]
      rfl
  unfold AddOpenAck at h
  by_cases hdup : (lookupA ((lookupA s.openAcks a).getD []) pn).isSome = true
  · rw [if_pos hdup] at h
    exact absurd h (by simp)
  · rw [if_neg hdup] at h
    dsimp only at h
    by_cases hw : (pn : Int) - (lookupA s.highestAckedContiguousPktNum a).getD (-1) >
        (lookupA s.cwnd a).getD ic
    · rw [if_pos hw] at h
      injection h with h
      injection h with hX hm
      subst hX
      refine ⟨?_, ?_, ?_⟩
      · intro b v hb
        exact h1 b v hb
      · intro b v hb
        exact hcwndMap b v hb
      · intro b ks hb
        exact hcwndMapSome b (h3 b ks hb)
    · rw [if_neg hw] at h
      injection h with h
      injection h with hX hm
      subst hX
      refine ⟨?_, ?_, ?_⟩
      · intro b v hb
        exact h1 b v hb
      · intro b v hb
        exact hcwndMap b v hb
      · intro b ks hb
        have hb' : lookupA (setA s.openAcks a
            (setA ((lookupA s.openAcks a).getD []) pn RETRIES_PER_PACKET)) b = some ks := hb
        rw [lookupA_setA] at hb'
        by_cases hba : b = a
        · rw [hba]
          exact hcwndMapA
        · rw [if_neg hba] at hb'
          exact hcwndMapSome b (h3 b ks hb')

/-- Invariant preservation for the congestion-update tail of `removeOpenAck`,
for an arbitrary slow-start-threshold map `ssM` whose entries are all at
least 2. -/
theorem outInv_removeOpenAck_post (ic : Int) (s₁ : OutState) (a : Addr) (s' : OutState)
    (ssM : List (Addr × Int)) (cw : Int)
    (hss : ∀ b v, lookupA ssM b = some v → 2 ≤ v)
    (hcwge : ic ≤ cw)
    (hcwInv : ∀ b v, lookupA s₁.cwnd b = some v → ic ≤ v)
    (hopen : ∀ b ks, lookupA s₁.openAcks b = some ks → (lookupA s₁.cwnd b).isSome = true)
    (h : (if cw < (lookupA ssM a).getD 0 then
        some { s₁ with cwnd := setA s₁.cwnd a (cw + 1), ssthresh := ssM, cAvoidanceAcc := setA s₁.cAvoidanceAcc a 0 }
      else if (lookupA s₁.cAvoidanceAcc a).getD 0 + 1 ≥ cw then
        some { s₁ with cwnd := setA s₁.cwnd a (cw + 1), ssthresh := ssM, cAvoidanceAcc := setA s₁.cAvoidanceAcc a 0 }
      else
        some { s₁ with ssthresh := ssM, cAvoidanceAcc := setA s₁.cAvoidanceAcc a ((lookupA s₁.cAvoidanceAcc a).getD 0 + 1) }) = some s') :
    OutInv ic s' := by
  split at h
  · injection h with h
    subst h
    refine ⟨?_, ?_, ?_⟩
    · intro b v hb
      exact hss b v hb
    · intro b v hb
      have hb' : lookupA (setA s₁.cwnd a (cw + 1)) b = some v := hb
      rw [lookupA_setA] at hb'
      by_cases hba : b = a
      · rw [if_pos hba] at hb'
        injection hb' with hb'
        omega
      · rw [if_neg hba] at hb'
        exact hcwInv b v hb'
    · intro b ks hb
      have hc := hopen b ks hb
      show (lookupA (setA s₁.cwnd a (cw + 1)) b).isSome = true
      rw [lookupA_setA]
      by_cases hba : b = a
      · rw [if_pos hba]
        rfl
      · rw [if_neg hba]
        exact hc
  · split at h
    · injection h with h
      subst h
      refine ⟨?_, ?_, ?_⟩
      · intro b v hb
        exact hss b v hb
      · intro b v hb
        have hb' : lookupA (setA s₁.cwnd a (cw + 1)) b = some v := hb
        rw [lookupA_setA] at hb'
        by_cases hba : b = a
        · rw [if_pos hba] at hb'
          injection hb' with hb'
          omega
        · rw [if_neg hba] at hb'
          exact hcwInv b v hb'
      · intro b ks hb
        have hc := hopen b ks hb
        show (lookupA (setA s₁.cwnd a (cw + 1)) b).isSome = true
        rw [lookupA_setA]
        by_cases hba : b = a
        · rw [if_pos hba]
          rfl
        · rw [if_neg hba]
          exact hc
    · injection h with h
      subst h
      refine ⟨?_, ?_, ?_⟩
      · intro b v hb
        exact hss b v hb
      · intro b v hb
        exact hcwInv b v hb
      · intro b ks hb
        exact hopen b ks hb

/-- `removeOpenAck` preserves the invariant. -/
theorem outInv_removeOpenAck (ic : Int) (s : OutState) (a : Addr) (pn : Nat) (ar : Bool)
    (s' : OutState) (h : removeOpenAck s a pn ar = some s') (hinv : OutInv ic s) :
    OutInv ic s' := by
  obtain ⟨h1, h2, h3⟩ := hinv
  unfold removeOpenAck at h
  by_cases hnone : (lookupA ((lookupA s.openAcks a).getD []) pn).isNone = true
  · rw [if_pos hnone] at h
    exact absurd h (by simp)
  · rw [if_neg hnone] at h
    dsimp only at h
    have hcwndA : (lookupA s.cwnd a).isSome = true := by
      rcases ho : lookupA s.openAcks a with _ | ks
      · rw [ho] at hnone
        simp [lookupA] at hnone
      · exact h3 a ks ho
    rcases hadv : advanceHacLoop (2 ^ 32 + 2)
        { s with openAcks :=
            if (removeA ((lookupA s.openAcks a).getD []) pn).isEmpty = true then
              removeA s.openAcks a
            else setA s.openAcks a (removeA ((lookupA s.openAcks a).getD []) pn) } a
      with _ | s₁
    · rw [hadv] at h
      exact absurd h (by simp)
    · rw [hadv] at h
      dsimp only at h
      obtain ⟨hf1, hf2, hf3, hf4, hf5⟩ := advanceHacLoop_frame (2 ^ 32 + 2) _ a s₁ hadv
      have hs₁cwnd : s₁.cwnd = s.cwnd := hf3
      have hs₁ss : s₁.ssthresh = s.ssthresh := hf4
      have hopenSub : ∀ b ks, lookupA s₁.openAcks b = some ks →
          (lookupA s.cwnd b).isSome = true := by
        intro b ks hb
        rw [hf2] at hb
        by_cases hemp : (removeA ((lookupA s.openAcks a).getD []) pn).isEmpty = true
        · rw [if_pos hemp] at hb
          rw [show ({ s with openAcks := removeA s.openAcks a } : OutState).openAcks =
            removeA s.openAcks a from rfl, lookupA_removeA] at hb
          by_cases hba : b = a
          · rw [if_pos hba] at hb
            exact absurd hb (by simp)
          · rw [if_neg hba] at hb
            exact h3 b ks hb
        · rw [if_neg hemp] at hb
          rw [show ({ s with openAcks := setA s.openAcks a (removeA ((lookupA s.openAcks a).getD []) pn) } : OutState).openAcks = setA s.openAcks a (removeA ((lookupA s.openAcks a).getD []) pn) from rfl, lookupA_setA] at hb
          by_cases hba : b = a
          · rw [hba]
            exact hcwndA
          · rw [if_neg hba] at hb
            exact h3 b ks hb
      rcases ar with _ | _
      · rw [if_neg Bool.false_ne_true] at h
        injection h with h
        subst h
        refine ⟨?_, ?_, ?_⟩
        · intro b v hb
          rw [hs₁ss] at hb
          exact h1 b v hb
        · intro b v hb
          rw [hs₁cwnd] at hb
          exact h2 b v hb
        · intro b ks hb
          rw [hs₁cwnd]
          exact hopenSub b ks hb
      · simp only [eq_self_iff_true, if_true] at h
        have hssMap : ∀ b v,
            lookupA (if (lookupA s₁.ssthresh a).isSome = true then s₁.ssthresh
              else setA s₁.ssthresh a (2 ^ 63 - 1)) b = some v → 2 ≤ v := by
          intro b v hb
          by_cases hc : (lookupA s₁.ssthresh a).isSome = true
          · rw [if_pos hc, hs₁ss] at hb
            exact h1 b v hb
          · rw [if_neg hc, lookupA_setA] at hb
            by_cases hba : b = a
            · rw [if_pos hba] at hb
              injection hb with hb
              omega
            · rw [if_neg hba, hs₁ss] at hb
              exact h1 b v hb
        obtain ⟨cw, hcw⟩ : ∃ cw, lookupA s.cwnd a = some cw :=
          Option.isSome_iff_exists.mp hcwndA
        have hcwge : ic ≤ cw := h2 a cw hcw
        have hcw1 : lookupA s₁.cwnd a = some cw := by rw [hs₁cwnd]; exact hcw
        rw [hcw1] at h
        simp only [Option.getD_some] at h
        refine outInv_removeOpenAck_post ic s₁ a s' _ cw hssMap hcwge ?_ ?_ h
        · intro b v hb
          rw [hs₁cwnd] at hb
          exact h2 b v hb
        · intro b ks hb
          rw [hs₁cwnd]
          exact hopenSub b ks hb

/-- `handleAckTimeout` preserves the invariant. -/
theorem outInv_handleAckTimeout (ic : Int) (s : OutState) (a : Addr) (pn : Nat) (cp : Bool)
    (s' : OutState) (h : handleAckTimeout ic s a pn cp = some s') (hinv : OutInv ic s) :
    OutInv ic s' := by
  obtain ⟨h1, h2, h3⟩ := hinv
  unfold handleAckTimeout at h
  rcases hl : lookupA ((lookupA s.openAcks a).getD []) pn with _ | retries
  · rw [hl] at h
    dsimp only at h
    injection h with h
    subst h
    exact ⟨h1, h2, h3⟩
  · rw [hl] at h
    dsimp only at h
    have hopenA : (lookupA s.openAcks a).isSome = true := by
      rcases ho : lookupA s.openAcks a with _ | ks
      · rw [ho] at hl
        simp [lookupA] at hl
      · rfl
    have hcwndA : (lookupA s.cwnd a).isSome = true := by
      rcases ho : lookupA s.openAcks a with _ | ks
      · rw [ho] at hopenA
        simp at hopenA
      · exact h3 a ks ho
    by_cases hmd : retries = RETRIES_PER_PACKET ∧ cp = true
    · rw [if_pos hmd] at h
      have hInvMD : OutInv ic { s with
          ssthresh := setA s.ssthresh a (max ((lookupA s.cwnd a).getD 0 / 2) 2),
          cwnd := setA s.cwnd a (max ((lookupA s.cwnd a).getD 0 / 2) ic),
          cAvoidanceAcc := setA s.cAvoidanceAcc a 0 } := by
        refine ⟨?_, ?_, ?_⟩
        · intro b v hb
          have hb' : lookupA (setA s.ssthresh a (max ((lookupA s.cwnd a).getD 0 / 2) 2)) b =
              some v := hb
          rw [lookupA_setA] at hb'
          by_cases hba : b = a
          · rw [if_pos hba] at hb'
            injection hb' with hb'
            omega
          · rw [if_neg hba] at hb'
            exact h1 b v hb'
        · intro b v hb
          have hb' : lookupA (setA s.cwnd a (max ((lookupA s.cwnd a).getD 0 / 2) ic)) b =
              some v := hb
          rw [lookupA_setA] at hb'
          by_cases hba : b = a
          · rw [if_pos hba] at hb'
            injection hb' with hb'
            omega
          · rw [if_neg hba] at hb'
            exact h2 b v hb'
        · intro b ks hb
          show (lookupA (setA s.cwnd a (max ((lookupA s.cwnd a).getD 0 / 2) ic)) b).isSome =
            true
          rw [lookupA_setA]
          by_cases hba : b = a
          · rw [if_pos hba]
            rfl
          · rw [if_neg hba]
            exact h3 b ks hb
      obtain ⟨m1, m2, m3⟩ := hInvMD
      by_cases hr0 : retries - 1 = 0
      · rw [if_pos hr0] at h
        exact outInv_removeOpenAck ic _ a pn false s' h ⟨m1, m2, m3⟩
      · rw [if_neg hr0] at h
        injection h with h
        subst h
        refine ⟨?_, ?_, ?_⟩
        · intro b v hb
          exact m1 b v hb
        · intro b v hb
          exact m2 b v hb
        · intro b ks hb
          rw [lookupA_setA] at hb
          by_cases hba : b = a
          · rw [hba]
            show (lookupA (setA s.cwnd a (max ((lookupA s.cwnd a).getD 0 / 2) ic)) a).isSome =
              true
            rw [lookupA_setA, if_pos rfl]
            rfl
          · rw [if_neg hba] at hb
            exact m3 b ks hb
    · rw [if_neg hmd] at h
      by_cases hr0 : retries - 1 = 0
      · rw [if_pos hr0] at h
        exact outInv_removeOpenAck ic s a pn false s' h ⟨h1, h2, h3⟩
      · rw [if_neg hr0] at h
        injection h with h
        subst h
        refine ⟨?_, ?_, ?_⟩
        · intro b v hb
          exact h1 b v hb
        · intro b v hb
          exact h2 b v hb
        · intro b ks hb
          rw [lookupA_setA] at hb
          by_cases hba : b = a
          · rw [hba]
            exact hcwndA
          · rw [if_neg hba] at hb
            exact h3 b ks hb

/-- Every reachable outgoing-tracker state satisfies the invariant. -/
theorem outInv_reachable (ic : Int) (s : OutState) (h : ReachableOut ic s) : OutInv ic s := by
  induction h with
  | init => exact outInv_empty ic
  | @step s t h₁ h₂ ih =>
    cases h₂ with
    | getNext a => exact outInv_getNext ic s a ih
    | addOpenAck t' a pn e hAdd => exact outInv_addOpenAck ic s a pn t e hAdd ih
    | removeAck t' a pn hR =>
      unfold RemoveOpenAck at hR
      by_cases hn : (lookupA ((lookupA s.openAcks a).getD []) pn).isNone = true
      · rw [if_pos hn] at hR
        injection hR with hR
        subst hR
        exact ih
      · rw [if_neg hn] at hR
        exact outInv_removeOpenAck ic s a pn true t hR ih
    | ackTimeout t' a pn cp hT => exact outInv_handleAckTimeout ic s a pn cp t hT ih
    | clear a => exact outInv_clear ic s a ih

/-- **C2** (amended).  In every state of the outgoing tracker reachable from
the empty state: every stored slow-start threshold is at least 2 and every
stored congestion window is at least the initial window; and a timeout of a
packet at its full retry budget with the cooldown passed (a multiplicative
decrease) leaves `cwnd = max (cwndBefore / 2) initialCwnd` and
`ssthresh = max (cwndBefore / 2) 2` for that destination.  Of the original
claim, both the half-open open-ack window invariant and the bound of the
contiguous counter by the next packet number are refuted by the
counterexample traces (`OpenAckWindowInv` fails on `c2TraceS5`,
`HacBelowNextInv` on `c2TraceT3`). -/
theorem claim_C2_out_invariants (ic : Int) (s : OutState) (h : ReachableOut ic s) :
    ((∀ a v, lookupA s.ssthresh a = some v → 2 ≤ v) ∧
      (∀ a v, lookupA s.cwnd a = some v → ic ≤ v)) ∧
    (∀ (a : Addr) (pn : Nat) (cw : Int) (s' : OutState),
      lookupA s.cwnd a = some cw →
      lookupA ((lookupA s.openAcks a).getD []) pn = some RETRIES_PER_PACKET →
      handleAckTimeout ic s a pn true = some s' →
      lookupA s'.cwnd a = some (max (cw / 2) ic) ∧
      lookupA s'.ssthresh a = some (max (cw / 2) 2)) := by
  have hinv := outInv_reachable ic s h
  refine ⟨⟨hinv.1, hinv.2.1⟩, ?_⟩
  intro a pn cw s' hcw hl hto
  unfold handleAckTimeout at hto
  rw [hl] at hto
  dsimp only at hto
  rw [if_pos (⟨rfl, rfl⟩ : RETRIES_PER_PACKET = RETRIES_PER_PACKET ∧ true = true), hcw] at hto
  simp only [Option.getD_some] at hto
  rw [if_neg (by decide : ¬ RETRIES_PER_PACKET - 1 = 0)] at hto
  injection hto with hto
  subst hto
  constructor
  · show lookupA (setA s.cwnd a (max (cw / 2) ic)) a = some (max (cw / 2) ic)
    rw [lookupA_setA, if_pos rfl]
  · show lookupA (setA s.ssthresh a (max (cw / 2) 2)) a = some (max (cw / 2) 2)
    rw [lookupA_setA, if_pos rfl]

theorem claim_C2_counterexample :
    (ReachableOut 10 c2TraceS5 ∧ ¬ OpenAckWindowInv c2TraceS5) ∧
      (ReachableOut 10 c2TraceT3 ∧ ¬ HacBelowNextInv c2TraceT3) := by
  refine ⟨⟨?_, ?_⟩, ?_, ?_⟩
  · have h1 : ReachableOut 10 c2TraceS1 :=
      ReachableOut.step ReachableOut.init (OutStep.getNext emptyOutState 5)
    have h2 : ReachableOut 10 c2TraceS2 :=
      ReachableOut.step h1 (OutStep.getNext c2TraceS1 5)
    have h3 : ReachableOut 10 c2TraceS3 :=
      ReachableOut.step h2 (OutStep.addOpenAck c2TraceS2 c2TraceS3 5 0 none (by decide))
    have h4 : ReachableOut 10 c2TraceS4 :=
      ReachableOut.step h3 (OutStep.removeAck c2TraceS3 c2TraceS4 5 0 (by decide))
    exact ReachableOut.step h4 (OutStep.addOpenAck c2TraceS4 c2TraceS5 5 1 none (by decide))
  · intro hinv
    obtain ⟨hac, cw, e1, e2, e3, e4⟩ :=
      hinv 5 [(1, RETRIES_PER_PACKET)] 1 RETRIES_PER_PACKET (by decide) (by decide)
    have ehac : lookupA c2TraceS5.highestAckedContiguousPktNum 5 = some 1 := by decide
    rw [ehac] at e1
    injection e1 with e1
    omega
  · have h1 : ReachableOut 10 c2TraceT1 :=
      ReachableOut.step ReachableOut.init
        (OutStep.addOpenAck emptyOutState c2TraceT1 5 3 none (by decide))
    have h2 : ReachableOut 10 c2TraceT2 :=
      ReachableOut.step h1 (OutStep.addOpenAck c2TraceT1 c2TraceT2 5 0 none (by decide))
    exact ReachableOut.step h2 (OutStep.removeAck c2TraceT2 c2TraceT3 5 0 (by decide))
  · intro hinv
    have hlt := hinv 5 2 (by decide)
    have e : (lookupA c2TraceT3.packetNumbers 5).getD 0 = 0 := by decide
    rw [e] at hlt
    exact absurd hlt (by decide)

theorem claim_C2_witness : (2 : Int) ≤ 2 ^ 63 - 1 := by
  have h1 : ReachableOut 10 c2TraceS1 :=
    ReachableOut.step ReachableOut.init (OutStep.getNext emptyOutState 5)
  have h2 : ReachableOut 10 c2TraceS2 :=
    ReachableOut.step h1 (OutStep.getNext c2TraceS1 5)
  have h3 : ReachableOut 10 c2TraceS3 :=
    ReachableOut.step h2 (OutStep.addOpenAck c2TraceS2 c2TraceS3 5 0 none (by decide))
  have h4 : ReachableOut 10 c2TraceS4 :=
    ReachableOut.step h3 (OutStep.removeAck c2TraceS3 c2TraceS4 5 0 (by decide))
  exact (claim_C2_out_invariants 10 c2TraceS4 h4).1.1 5 (2 ^ 63 - 1) (by decide)

/-- The BFS loop only appends to the unreachable report. -/
theorem bfsLoop_unreach_mono (lsdb : List (Addr × LSAEntry)) (nrLen : Nat) :
    ∀ (fuel : Nat) (q vis unr out : List Addr),
      bfsLoop lsdb nrLen fuel q vis unr = some out → ∀ x, x ∈ unr → x ∈ out := by
  intro fuel
  induction fuel with
  | zero =>
    intro q vis unr out h
    exact absurd h (by simp [bfsLoop])
  | succ n ih =>
    intro q vis unr out h x hx
    rcases q with _ | ⟨node, q'⟩
    · have heq : bfsLoop lsdb nrLen (n + 1) [] vis unr = some unr := rfl
      rw [heq] at h
      injection h with h
      rw [← h]
      exact hx
    · have heq : bfsLoop lsdb nrLen (n + 1) (node :: q') vis unr =
          (if vis.contains node = true then bfsLoop lsdb nrLen n q' vis unr
           else
             match lookupA lsdb node with
             | none => bfsLoop lsdb nrLen n q' vis unr
             | some lsa =>
               if nrLen ≤ unr.length then none
               else
                 bfsLoop lsdb nrLen n
                   (q' ++ lsa.Neighbors.filter (fun m => ¬ (vis ++ [node]).contains m))
                   (vis ++ [node]) (unr ++ [node])) := rfl
      rw [heq] at h
      by_cases hc : vis.contains node = true
      · rw [if_pos hc] at h
        exact ih q' vis unr out h x hx
      · rw [if_neg hc] at h
        rcases hl : lookupA lsdb node with _ | lsa
        · rw [hl] at h
          exact ih q' vis unr out h x hx
        · rw [hl] at h
          dsimp only at h
          by_cases hn : nrLen ≤ unr.length
          · rw [if_pos hn] at h
            exact absurd h (by simp)
          · rw [if_neg hn] at h
            exact ih _ _ _ out h x (by simp [hx])

/-- Entries of addresses outside the cleared host list survive
`clearUnreachableLsdb` unchanged. -/
theorem clearUnreachableLsdb_lookup (hosts : List Addr) :
    ∀ (m : List (Addr × LSAEntry)) (b : Addr), b ∉ hosts →
      lookupA (clearUnreachableLsdb m hosts) b = lookupA m b := by
  induction hosts with
  | nil =>
    intro m b _
    rfl
  | cons hd tl ih =>
    intro m b hb
    have hne : b ≠ hd := fun h => hb (h ▸ List.mem_cons_self hd tl)
    have htl : b ∉ tl := fun h => hb (List.mem_cons_of_mem hd h)
    have heq : clearUnreachableLsdb m (hd :: tl) = clearUnreachableLsdb (removeA m hd) tl := rfl
    rw [heq, ih (removeA m hd) b htl, lookupA_removeA, if_neg hne]

/-- **C10** (amended).  The unreachable-host computation leaves every LSDB
entry except the removed neighbor's untouched, and the removed neighbor is
always in the reported set, so after the reported hosts are cleared every
surviving entry equals the original; the neighbor and routing tables are not
modified by the computation.  The original claim that the removed neighbor's
stored neighbor list itself is unchanged is refuted by the counterexample: the
seed filtering is applied destructively to the stored entry. -/
theorem claim_C10_lsdb_frame (localAddr : Addr) (r : RouterState) (nr : List Addr)
    (lsaOwner : Addr) (oldLSA : LSAEntry) (out : List Addr) (r' : RouterState)
    (h : getUnreachableHosts localAddr r nr lsaOwner oldLSA = some (out, r')) :
    (∀ b, b ∉ out → lookupA r'.lsdb b = lookupA r.lsdb b) ∧
    (∀ b, b ∉ out → lookupA (clearUnreachableLsdb r'.lsdb out) b = lookupA r.lsdb b) ∧
    r'.neighborTable = r.neighborTable ∧ r'.routingTable = r.routingTable := by
  unfold getUnreachableHosts at h
  rcases hcur : lookupA r.lsdb lsaOwner with _ | currentLSA
  · rw [hcur] at h
    exact absurd h (by simp)
  · rw [hcur] at h
    dsimp only at h
    by_cases hge : currentLSA.Neighbors.length ≥ oldLSA.Neighbors.length
    · rw [if_pos hge] at h
      injection h with h
      injection h with h1 h2
      subst h1
      subst h2
      refine ⟨fun b _ => rfl, ?_, rfl, rfl⟩
      intro b hb
      rw [clearUnreachableLsdb_lookup [] r.lsdb b hb]
    · rw [if_neg hge] at h
      by_cases hrt : (lookupA r.routingTable
          ((oldLSA.Neighbors.find? (fun n => ¬ currentLSA.Neighbors.contains n)).getD
            0)).isSome = true ∨
          (oldLSA.Neighbors.find? (fun n => ¬ currentLSA.Neighbors.contains n)).getD 0 =
            localAddr
      · rw [if_pos hrt] at h
        injection h with h
        injection h with h1 h2
        subst h1
        subst h2
        refine ⟨fun b _ => rfl, ?_, rfl, rfl⟩
        intro b hb
        rw [clearUnreachableLsdb_lookup [] r.lsdb b hb]
      · rw [if_neg hrt] at h
        rcases hrem : lookupA r.lsdb
            ((oldLSA.Neighbors.find? (fun n => ¬ currentLSA.Neighbors.contains n)).getD 0)
          with _ | removedLSA
        · rw [hrem] at h
          injection h with h
          injection h with h1 h2
          subst h1
          subst h2
          refine ⟨fun b _ => rfl, ?_, rfl, rfl⟩
          intro b hb
          rw [clearUnreachableLsdb_lookup [] r.lsdb b hb]
        · rw [hrem] at h
          dsimp only at h
          by_cases hz : nr.length = 0
          · rw [if_pos hz] at h
            exact absurd h (by simp)
          · rw [if_neg hz] at h
            rcases hbfs : bfsLoop (setA r.lsdb
                  ((oldLSA.Neighbors.find? (fun n => ¬ currentLSA.Neighbors.contains n)).getD 0)
                  ⟨removedLSA.SeqNum,
                    removedLSA.Neighbors.filter (fun n => n ≠ lsaOwner) ++
                      List.replicate (removedLSA.Neighbors.length -
                        (removedLSA.Neighbors.filter (fun n => n ≠ lsaOwner)).length) 0⟩)
                nr.length
                (bfsFuel (setA r.lsdb
                  ((oldLSA.Neighbors.find? (fun n => ¬ currentLSA.Neighbors.contains n)).getD 0)
                  ⟨removedLSA.SeqNum,
                    removedLSA.Neighbors.filter (fun n => n ≠ lsaOwner) ++
                      List.replicate (removedLSA.Neighbors.length -
                        (removedLSA.Neighbors.filter (fun n => n ≠ lsaOwner)).length) 0⟩)
                  (removedLSA.Neighbors.filter (fun n => n ≠ lsaOwner)))
                (removedLSA.Neighbors.filter (fun n => n ≠ lsaOwner))
                [(oldLSA.Neighbors.find? (fun n => ¬ currentLSA.Neighbors.contains n)).getD 0]
                [(oldLSA.Neighbors.find? (fun n => ¬ currentLSA.Neighbors.contains n)).getD 0]
              with _ | bout
            · rw [hbfs] at h
              exact absurd h (by simp)
            · rw [hbfs] at h
              dsimp only at h
              injection h with h
              injection h with h1 h2
              subst h1
              subst h2
              have hrnout : ((oldLSA.Neighbors.find?
                  (fun n => ¬ currentLSA.Neighbors.contains n)).getD 0) ∈ bout :=
                bfsLoop_unreach_mono _ _ _ _ _ _ _ hbfs _ (List.mem_singleton.mpr rfl)
              refine ⟨?_, ?_, rfl, rfl⟩
              · intro b hb
                have hne : b ≠ (oldLSA.Neighbors.find?
                    (fun n => ¬ currentLSA.Neighbors.contains n)).getD 0 :=
                  fun he => hb (he ▸ hrnout)
                show lookupA (setA r.lsdb _ _) b = lookupA r.lsdb b
                rw [lookupA_setA, if_neg hne]
              · intro b hb
                rw [clearUnreachableLsdb_lookup bout _ b hb]
                have hne : b ≠ (oldLSA.Neighbors.find?
                    (fun n => ¬ currentLSA.Neighbors.contains n)).getD 0 :=
                  fun he => hb (he ▸ hrnout)
                show lookupA (setA r.lsdb _ _) b = lookupA r.lsdb b
                rw [lookupA_setA, if_neg hne]

theorem claim_C10_counterexample :
    (RemoveNeighbor 102 lineRouter 103).isSome = true ∧
      lookupA ((RemoveNeighbor 102 lineRouter 103).getD ([], lineRouter)).2.lsdb 103 =
        some ⟨0, [104, 0]⟩ ∧
      lookupA lineRouter.lsdb 103 = some ⟨0, [102, 104]⟩ := by decide

theorem claim_C10_witness :
    lookupA (clearUnreachableLsdb c10Out.2.lsdb c10Out.1) 101 = lookupA c10Router.lsdb 101 := by
  have h := claim_C10_lsdb_frame 102 c10Router [103, 104] 102 ⟨0, [101, 103]⟩ c10Out.1 c10Out.2
    (by decide)
  exact h.2.1 101 (by decide)

/-- Full characterization of the BFS loop of `getUnreachableHosts` when started
with equal visited and unreachable lists containing the excluded root `rn`:
the report extends the visited list; every reported address beyond it is
reachable from the seeds without expanding `rn` and has a stored LSA; and every
such reachable address with a stored LSA is reported. -/
theorem bfsLoop_spec (lsdb : List (Addr × LSAEntry)) (nrLen : Nat) (rn : Addr)
    (seeds : List Addr) :
    ∀ (fuel : Nat) (q vis out : List Addr),
      bfsLoop lsdb nrLen fuel q vis vis = some out →
      (∀ x, x ∈ q → ReachLsdb (removeA lsdb rn) seeds x) →
      (∀ x, x ∈ vis → x = rn ∨
        (ReachLsdb (removeA lsdb rn) seeds x ∧ (lookupA lsdb x).isSome = true)) →
      rn ∈ vis →
      (∀ b e, b ∈ vis → lookupA (removeA lsdb rn) b = some e →
        ∀ n, n ∈ e.Neighbors → n ∈ vis ∨ n ∈ q ∨ lookupA lsdb n = none) →
      (∀ x, x ∈ seeds → x ∈ vis ∨ x ∈ q ∨ lookupA lsdb x = none) →
      (∀ x, x ∈ vis → x ∈ out) ∧
      (∀ x, x ∈ out → x ∈ vis ∨
        (ReachLsdb (removeA lsdb rn) seeds x ∧ (lookupA lsdb x).isSome = true)) ∧
      (∀ x, ReachLsdb (removeA lsdb rn) seeds x → (lookupA lsdb x).isSome = true →
        x ∈ out) := by
  intro fuel
  induction fuel with
  | zero =>
    intro q vis out h Hq Hvis Hrn Hcov Hseed
    exact absurd h (by simp [bfsLoop])
  | succ m ih =>
    intro q vis out h Hq Hvis Hrn Hcov Hseed
    rcases q with _ | ⟨node, q'⟩
    · have heq : bfsLoop lsdb nrLen (m + 1) [] vis vis = some vis := rfl
      rw [heq] at h
      injection h with h
      subst h
      have key : ∀ x, ReachLsdb (removeA lsdb rn) seeds x →
          x ∈ vis ∨ lookupA lsdb x = none := by
        intro x hx
        induction hx with
        | seed hs =>
          rcases Hseed _ hs with hv | hq | hn
          · exact Or.inl hv
          · exact absurd hq (by simp)
          · exact Or.inr hn
        | step hb hl hn ihb =>
          rcases ihb with hv | hnone
          · rcases Hcov _ _ hv hl _ hn with h1 | h1 | h1
            · exact Or.inl h1
            · exact absurd h1 (by simp)
            · exact Or.inr h1
          · rw [lookupA_removeA] at hl
            split at hl
            · exact absurd hl (by simp)
            · rw [hnone] at hl
              exact absurd hl (by simp)
      refine ⟨fun x hx => hx, fun x hx => Or.inl hx, ?_⟩
      intro x hx hsome
      rcases key x hx with hv | hn
      · exact hv
      · rw [hn] at hsome
        exact absurd hsome (by simp)
    · have heq : bfsLoop lsdb nrLen (m + 1) (node :: q') vis vis =
          (if vis.contains node = true then bfsLoop lsdb nrLen m q' vis vis
           else
             match lookupA lsdb node with
             | none => bfsLoop lsdb nrLen m q' vis vis
             | some lsa =>
               if nrLen ≤ vis.length then none
               else
                 bfsLoop lsdb nrLen m
                   (q' ++ lsa.Neighbors.filter (fun n => ¬ (vis ++ [node]).contains n))
                   (vis ++ [node]) (vis ++ [node])) := rfl
      rw [heq] at h
      by_cases hc : vis.contains node = true
      · rw [if_pos hc] at h
        have hnodev : node ∈ vis := by simpa using hc
        refine ih q' vis out h (fun x hx => Hq x (List.mem_cons_of_mem _ hx)) Hvis Hrn ?_ ?_
        · intro b e hb hl n hn
          rcases Hcov b e hb hl n hn with h1 | h1 | h1
          · exact Or.inl h1
          · rcases List.mem_cons.mp h1 with he | h2
            · exact Or.inl (he ▸ hnodev)
            · exact Or.inr (Or.inl h2)
          · exact Or.inr (Or.inr h1)
        · intro x hx
          rcases Hseed x hx with h1 | h1 | h1
          · exact Or.inl h1
          · rcases List.mem_cons.mp h1 with he | h2
            · exact Or.inl (he ▸ hnodev)
            · exact Or.inr (Or.inl h2)
          · exact Or.inr (Or.inr h1)
      · rw [if_neg hc] at h
        rcases hl : lookupA lsdb node with _ | lsa
        · rw [hl] at h
          refine ih q' vis out h (fun x hx => Hq x (List.mem_cons_of_mem _ hx)) Hvis Hrn ?_ ?_
          · intro b e hb hl2 n hn
            rcases Hcov b e hb hl2 n hn with h1 | h1 | h1
            · exact Or.inl h1
            · rcases List.mem_cons.mp h1 with he | h2
              · exact Or.inr (Or.inr (he ▸ hl))
              · exact Or.inr (Or.inl h2)
            · exact Or.inr (Or.inr h1)
          · intro x hx
            rcases Hseed x hx with h1 | h1 | h1
            · exact Or.inl h1
            · rcases List.mem_cons.mp h1 with he | h2
              · exact Or.inr (Or.inr (he ▸ hl))
              · exact Or.inr (Or.inl h2)
            · exact Or.inr (Or.inr h1)
        · rw [hl] at h
          dsimp only at h
          by_cases hnr : nrLen ≤ vis.length
          · rw [if_pos hnr] at h
            exact absurd h (by simp)
          · rw [if_neg hnr] at h
            have hni : node ∉ vis := by simpa using hc
            have hnern : node ≠ rn := fun he => hni (he ▸ Hrn)
            have hlr : lookupA (removeA lsdb rn) node = some lsa := by
              rw [lookupA_removeA, if_neg hnern]
              exact hl
            have hRnode : ReachLsdb (removeA lsdb rn) seeds node :=
              Hq node (List.mem_cons_self _ _)
            have Hq2 : ∀ x, x ∈ q' ++ lsa.Neighbors.filter
                (fun n => ¬ (vis ++ [node]).contains n) →
                ReachLsdb (removeA lsdb rn) seeds x := by
              intro x hx
              rcases List.mem_append.mp hx with hx | hx
              · exact Hq x (List.mem_cons_of_mem _ hx)
              · exact ReachLsdb.step hRnode hlr (List.mem_filter.mp hx).1
            have Hvis2 : ∀ x, x ∈ vis ++ [node] → x = rn ∨
                (ReachLsdb (removeA lsdb rn) seeds x ∧ (lookupA lsdb x).isSome = true) := by
              intro x hx
              rcases List.mem_append.mp hx with hx | hx
              · exact Hvis x hx
              · have he : x = node := by simpa using hx
                subst he
                exact Or.inr ⟨hRnode, by rw [hl]; rfl⟩
            have Hrn2 : rn ∈ vis ++ [node] := List.mem_append_left _ Hrn
            have Hcov2 : ∀ b e, b ∈ vis ++ [node] → lookupA (removeA lsdb rn) b = some e →
                ∀ n, n ∈ e.Neighbors → n ∈ vis ++ [node] ∨
                  n ∈ q' ++ lsa.Neighbors.filter (fun n => ¬ (vis ++ [node]).contains n) ∨
                  lookupA lsdb n = none := by
              intro b e hb hl2 n hn
              rcases List.mem_append.mp hb with hb | hb
              · rcases Hcov b e hb hl2 n hn with h1 | h1 | h1
                · exact Or.inl (List.mem_append_left _ h1)
                · rcases List.mem_cons.mp h1 with he | h2
                  · exact Or.inl (List.mem_append_right _ (by simp [he]))
                  · exact Or.inr (Or.inl (List.mem_append_left _ h2))
                · exact Or.inr (Or.inr h1)
              · have hbe : b = node := by simpa using hb
                rw [hbe, hlr] at hl2
                injection hl2 with hl2
                subst hl2
                by_cases hcn : (vis ++ [node]).contains n = true
                · exact Or.inl (by simpa using hcn)
                · refine Or.inr (Or.inl (List.mem_append_right _ ?_))
                  rw [List.mem_filter]
                  exact ⟨hn, by simpa using hcn⟩
            have Hseed2 : ∀ x, x ∈ seeds → x ∈ vis ++ [node] ∨
                x ∈ q' ++ lsa.Neighbors.filter (fun n => ¬ (vis ++ [node]).contains n) ∨
                lookupA lsdb x = none := by
              intro x hx
              rcases Hseed x hx with h1 | h1 | h1
              · exact Or.inl (List.mem_append_left _ h1)
              · rcases List.mem_cons.mp h1 with he | h2
                · exact Or.inl (List.mem_append_right _ (by simp [he]))
                · exact Or.inr (Or.inl (List.mem_append_left _ h2))
              · exact Or.inr (Or.inr h1)
            obtain ⟨c1, c2, c3⟩ := ih _ _ _ h Hq2 Hvis2 Hrn2 Hcov2 Hseed2
            refine ⟨?_, ?_, c3⟩
            · intro x hx
              exact c1 x (List.mem_append_left _ hx)
            · intro x hx
              rcases c2 x hx with hv | hr
              · rcases List.mem_append.mp hv with hv | hv
                · exact Or.inl hv
                · have he : x = node := by simpa using hv
                  subst he
                  exact Or.inr ⟨hRnode, by rw [hl]; rfl⟩
              · exact Or.inr hr

/-- **C1** (amended).  Unreachable-host computation.  Concretely: in the line
`(101)-(102)-(103)-(104)`, router 102 removing neighbor 103 reports exactly
`[103, 104]`; in the ring, the report is empty.  In general, for
`getUnreachableHosts`: when the current LSA of the owner has at least as many
neighbors as the old one (the code's no-removal test — a same-length neighbor
swap therefore also lands here, which refutes the original claim's
removal condition), or the removed neighbor is routable or local, or it has no
stored LSA, the report is empty and the router is unchanged; otherwise the
report holds exactly the removed neighbor together with the addresses that
have a stored LSA and are reachable from the seed neighbors (the removed
neighbor's neighbors minus the LSA owner) over the LSDB without expanding the
removed neighbor. -/
theorem claim_C1_unreachable_bfs :
    ((RemoveNeighbor 102 lineRouter 103).map Prod.fst = some [103, 104] ∧
      (RemoveNeighbor 102 ringRouter 103).map Prod.fst = some []) ∧
    ∀ (localAddr : Addr) (r : RouterState) (nr : List Addr) (lsaOwner : Addr)
      (oldLSA currentLSA : LSAEntry) (out : List Addr) (r' : RouterState),
      getUnreachableHosts localAddr r nr lsaOwner oldLSA = some (out, r') →
      lookupA r.lsdb lsaOwner = some currentLSA →
      (currentLSA.Neighbors.length ≥ oldLSA.Neighbors.length → out = [] ∧ r' = r) ∧
      (currentLSA.Neighbors.length < oldLSA.Neighbors.length →
        ∀ rn, rn = (oldLSA.Neighbors.find?
            (fun n => ¬ currentLSA.Neighbors.contains n)).getD 0 →
        (((lookupA r.routingTable rn).isSome = true ∨ rn = localAddr) →
          out = [] ∧ r' = r) ∧
        (¬ ((lookupA r.routingTable rn).isSome = true ∨ rn = localAddr) →
          (lookupA r.lsdb rn = none → out = [] ∧ r' = r) ∧
          (∀ removedLSA, lookupA r.lsdb rn = some removedLSA →
            ∀ x, x ∈ out ↔ x = rn ∨
              (ReachLsdb (removeA r'.lsdb rn)
                  (removedLSA.Neighbors.filter (fun n => n ≠ lsaOwner)) x ∧
                (lookupA r'.lsdb x).isSome = true)))) := by
  refine ⟨⟨by decide, by decide⟩, ?_⟩
  intro localAddr r nr lsaOwner oldLSA currentLSA out r' h hcur
  unfold getUnreachableHosts at h
  rw [hcur] at h
  dsimp only at h
  by_cases hge : currentLSA.Neighbors.length ≥ oldLSA.Neighbors.length
  · rw [if_pos hge] at h
    injection h with h
    injection h with h1 h2
    subst h1
    subst h2
    refine ⟨fun _ => ⟨rfl, rfl⟩, ?_⟩
    intro hlt
    exact absurd hlt (by omega)
  · rw [if_neg hge] at h
    refine ⟨fun hge2 => absurd hge2 hge, ?_⟩
    intro hlt rn hrn
    subst hrn
    by_cases hrt : (lookupA r.routingTable
        ((oldLSA.Neighbors.find? (fun n => ¬ currentLSA.Neighbors.contains n)).getD
          0)).isSome = true ∨
        (oldLSA.Neighbors.find? (fun n => ¬ currentLSA.Neighbors.contains n)).getD 0 =
          localAddr
    · rw [if_pos hrt] at h
      injection h with h
      injection h with h1 h2
      subst h1
      subst h2
      exact ⟨fun _ => ⟨rfl, rfl⟩, fun hnrt => absurd hrt hnrt⟩
    · rw [if_neg hrt] at h
      refine ⟨fun hrt2 => absurd hrt2 hrt, ?_⟩
      intro _
      rcases hrem : lookupA r.lsdb
          ((oldLSA.Neighbors.find? (fun n => ¬ currentLSA.Neighbors.contains n)).getD 0)
        with _ | removedLSA
      · rw [hrem] at h
        injection h with h
        injection h with h1 h2
        subst h1
        subst h2
        refine ⟨fun _ => ⟨rfl, rfl⟩, ?_⟩
        intro removedLSA hrem2
        exact absurd hrem2 (by simp)
      · rw [hrem] at h
        dsimp only at h
        refine ⟨fun hnone => absurd hnone (by simp), ?_⟩
        intro removedLSA2 hrem2
        injection hrem2 with hrem2
        subst hrem2
        by_cases hz : nr.length = 0
        · rw [if_pos hz] at h
          exact absurd h (by simp)
        · rw [if_neg hz] at h
          rcases hbfs : bfsLoop (setA r.lsdb
                ((oldLSA.Neighbors.find? (fun n => ¬ currentLSA.Neighbors.contains n)).getD 0)
                ⟨removedLSA.SeqNum,
                  removedLSA.Neighbors.filter (fun n => n ≠ lsaOwner) ++
                    List.replicate (removedLSA.Neighbors.length -
                      (removedLSA.Neighbors.filter (fun n => n ≠ lsaOwner)).length) 0⟩)
              nr.length
              (bfsFuel (setA r.lsdb
                ((oldLSA.Neighbors.find? (fun n => ¬ currentLSA.Neighbors.contains n)).getD 0)
                ⟨removedLSA.SeqNum,
                  removedLSA.Neighbors.filter (fun n => n ≠ lsaOwner) ++
                    List.replicate (removedLSA.Neighbors.length -
                      (removedLSA.Neighbors.filter (fun n => n ≠ lsaOwner)).length) 0⟩)
                (removedLSA.Neighbors.filter (fun n => n ≠ lsaOwner)))
              (removedLSA.Neighbors.filter (fun n => n ≠ lsaOwner))
              [(oldLSA.Neighbors.find? (fun n => ¬ currentLSA.Neighbors.contains n)).getD 0]
              [(oldLSA.Neighbors.find? (fun n => ¬ currentLSA.Neighbors.contains n)).getD 0]
            with _ | bout
          · rw [hbfs] at h
            exact absurd h (by simp)
          · rw [hbfs] at h
            dsimp only at h
            injection h with h
            injection h with h1 h2
            subst h1
            subst h2
            obtain ⟨c1, c2, c3⟩ := bfsLoop_spec _ nr.length
              ((oldLSA.Neighbors.find? (fun n => ¬ currentLSA.Neighbors.contains n)).getD 0)
              (removedLSA.Neighbors.filter (fun n => n ≠ lsaOwner)) _ _ _ _ hbfs
              (fun x hx => ReachLsdb.seed hx)
              (fun x hx => Or.inl (by simpa using hx))
              (List.mem_singleton.mpr rfl)
              (fun b e hb hl n hn => by
                have hbe : b = (oldLSA.Neighbors.find?
                    (fun n => ¬ currentLSA.Neighbors.contains n)).getD 0 := by simpa using hb
                rw [hbe, lookupA_removeA, if_pos rfl] at hl
                exact absurd hl (by simp))
              (fun x hx => Or.inr (Or.inl hx))
            intro x
            constructor
            · intro hx
              rcases c2 x hx with hv | hr
              · exact Or.inl (by simpa using hv)
              · exact Or.inr hr
            · intro hx
              rcases hx with he | ⟨hr, hs⟩
              · exact c1 x (by simp [he])
              · exact c3 x hr hs

theorem claim_C1_counterexample :
    (UpdateLSA 101 ceRouter 102 1 [101, 105]).map Prod.fst = some [] ∧
      (103 : Addr) ∈ ([101, 103] : List Addr) ∧ (103 : Addr) ∉ ([101, 105] : List Addr) ∧
      lookupA ((UpdateLSA 101 ceRouter 102 1 [101, 105]).getD
        ([], ceRouter)).2.routingTable 103 = none ∧
      lookupA ((UpdateLSA 101 ceRouter 102 1 [101, 105]).getD ([], ceRouter)).2.lsdb 103 =
        some ⟨0, [102, 104]⟩ := by decide

theorem claim_C1_witness : (103 : Addr) ∈ c10Out.1 := by
  have h := ((((claim_C1_unreachable_bfs.2 102 c10Router [103, 104] 102 ⟨0, [101, 103]⟩
      ⟨1, [101]⟩ c10Out.1 c10Out.2 (by decide) (by decide)).2 (by decide) 103
      (by decide)).2 (by decide)).2 ⟨0, [102, 104]⟩ (by decide)) 103
  exact h.mpr (Or.inl rfl)

end ChatProto
